import Mathlib

/-!
Shallow embedding of the react-serializable-model core
(src/models/SerializableModel and src/enums/Enum.js), used to settle the
specification claims.  JavaScript runtime values are modelled by the
inductive type `Value` below; mutable nodes (arrays, plain objects, model
instances) carry an allocation label `id : Nat` so that reference identity
(the JavaScript `===` on objects) and sharing are expressible, and plain
objects and arrays carry a `frozen` flag modelling `Object.freeze`.
JavaScript numbers are modelled as integers (`Int`) plus an explicit `nan`
value; fractional values are outside the modelled scope (no claim uses
them).  Zero-argument functions (producers) are modelled as `func ret`, a
thunk returning the fixed value `ret`.  Fallible operations return
`Except JsErr`.  Every recursive walk over values takes an explicit fuel
argument so that all definitions are structurally recursive and reduce by
`rfl`; `JsErr.outOfFuel` is an artifact of that bounding and is never
produced at adequate fuel.
-/

namespace RSM

/-- A JavaScript runtime value, as used by the SerializableModel core. -/
inductive Value where
  | undef
  | null
  | bool (b : Bool)
  | num (n : Int)
  | nan
  | str (s : String)
  | func (ret : Value)
  | arr (id : Nat) (frozen : Bool) (elems : List Value)
  | obj (id : Nat) (frozen : Bool) (fields : List (String × Value))
  | inst (id : Nat) (cls : Nat) (fields : List (String × Value))

/-- `typeof v === "undefined"`. -/
def Value.isUndef : Value → Bool
  | .undef => true
  | _ => false

/-- `typeof v === "function"`. -/
def Value.isFunc : Value → Bool
  | .func _ => true
  | _ => false

/-- The value is a primitive (not an array, object, instance or function). -/
def Value.isPrim : Value → Bool
  | .undef | .null | .bool _ | .num _ | .nan | .str _ => true
  | _ => false

/-- JavaScript truthiness: `!!v`. -/
def jsTruthy : Value → Bool
  | .undef | .null | .nan => false
  | .bool b => b
  | .num n => n != 0
  | .str s => s != ""
  | _ => true

/-- JavaScript strict equality `===`: structural on primitives (with
`NaN === NaN` false), reference equality (allocation label) on arrays,
objects and instances.  Function values carry no label in this model and
compare unequal (no claim compares functions). -/
def jsStrictEq : Value → Value → Bool
  | .nan, _ => false
  | _, .nan => false
  | .undef, .undef => true
  | .null, .null => true
  | .bool a, .bool b => a == b
  | .num a, .num b => a == b
  | .str a, .str b => a == b
  | .arr i _ _, .arr j _ _ => i == j
  | .obj i _ _, .obj j _ _ => i == j
  | .inst i _ _, .inst j _ _ => i == j
  | _, _ => false

/-- Property read `v[k]` for string keys: own properties of plain objects
and model instances; any other base (or a missing key) yields `undefined`.
Numeric indexing of arrays is outside the modelled scope. -/
def getProp (v : Value) (k : String) : Value :=
  match v with
  | .obj _ _ fs => (fs.lookup k).getD .undef
  | .inst _ _ fs => (fs.lookup k).getD .undef
  | _ => Value.undef

/-- Assoc-list upsert: overwrite the first binding of `k` in place, else
append, matching JavaScript property-assignment order. -/
def upsertField {α : Type} (fs : List (String × α)) (k : String) (v : α) :
    List (String × α) :=
  if fs.any (fun p => p.1 == k) then
    fs.map (fun p => if p.1 == k then (p.1, v) else p)
  else fs ++ [(k, v)]

/-- Property write `v[k] = w`: silently ignored on a frozen object
(sloppy-mode semantics of a write to a frozen target). -/
def setProp (v : Value) (k : String) (w : Value) : Value :=
  match v with
  | .obj id frozen fs => if frozen then v else .obj id frozen (upsertField fs k w)
  | .inst id c fs => .inst id c (upsertField fs k w)
  | v => v

/-- Property delete `delete v[k]`: silently ignored on a frozen object. -/
def deleteProp (v : Value) (k : String) : Value :=
  match v with
  | .obj id frozen fs =>
      if frozen then v else .obj id frozen (fs.filter (fun p => p.1 != k))
  | .inst id c fs => .inst id c (fs.filter (fun p => p.1 != k))
  | v => v

/-- `Object.freeze(v)`: marks the top-level object or array frozen; a
no-op on primitives.  Freezing is shallow. -/
def freezeTop : Value → Value
  | .obj id _ fs => .obj id true fs
  | .arr id _ xs => .arr id true xs
  | v => v

/-- Modelled from the spec: the external emptiness predicate `isEmpty`,
true for null, absent (undefined) and empty-string values. -/
def isEmpty : Value → Bool
  | .undef | .null | .str "" => true
  | _ => false

/-- Modelled from the spec: the external predicate `isNone`, true exactly
for null and undefined. -/
def isNone : Value → Bool
  | .undef | .null => true
  | _ => false

/-- Parse a full decimal-integer string (optional leading minus). -/
def parseIntStr (s : String) : Option Int :=
  match s.data with
  | [] => none
  | '-' :: rest =>
      if rest ≠ [] ∧ rest.all Char.isDigit then
        some (-(Int.ofNat (rest.foldl (fun a c => a * 10 + (c.toNat - 48)) 0)))
      else none
  | l =>
      if l.all Char.isDigit then
        some (Int.ofNat (l.foldl (fun a c => a * 10 + (c.toNat - 48)) 0))
      else none

/-- Parse the longest leading decimal-integer run of a string, as
`parseFloat` does (fractional values outside the modelled scope). -/
def parseIntLead (s : String) : Option Int :=
  match s.data with
  | '-' :: rest =>
      let ds := rest.takeWhile Char.isDigit
      if ds = [] then none
      else some (-(Int.ofNat (ds.foldl (fun a c => a * 10 + (c.toNat - 48)) 0)))
  | l =>
      let ds := l.takeWhile Char.isDigit
      if ds = [] then none
      else some (Int.ofNat (ds.foldl (fun a c => a * 10 + (c.toNat - 48)) 0))

/-- Whitespace trimming implemented over the character list (the host
String.trim does not reduce definitionally; used for the whitespace
handling of number conversion and JSON parsing). -/
def trimWs (s : String) : String :=
  String.mk (((s.data.dropWhile Char.isWhitespace).reverse.dropWhile
    Char.isWhitespace).reverse)

/-- JavaScript `ToNumber`, with `none` standing for `NaN`.  Non-primitive
values convert through `ToPrimitive`; they are modelled as `NaN` here (no
claim converts one to a number). -/
def toNumber : Value → Option Int
  | .undef => none
  | .null => some 0
  | .bool b => some (if b then 1 else 0)
  | .num n => some n
  | .nan => none
  | .str s =>
      let t := trimWs s
      if t = "" then some 0 else parseIntStr t
  | _ => none

/-- The global `isNaN(v)`: whether `ToNumber(v)` is `NaN`. -/
def jsIsNaN (v : Value) : Bool := (toNumber v).isNone

/-- JavaScript `String(v)` / template-literal conversion, fuelled for the
recursive array and instance cases.  The instance case is the
`SerializableModel.toString` override, which prints
`<ConstructorName:idOrName>`.  The class name is supplied by the caller
through `clsName`. -/
def jsToString (clsName : Nat → String) : Nat → Value → String
  | 0, _ => ""
  | _ + 1, .undef => "undefined"
  | _ + 1, .null => "null"
  | _ + 1, .nan => "NaN"
  | _ + 1, .bool b => if b then "true" else "false"
  | _ + 1, .num n => toString n
  | _ + 1, .str s => s
  | _ + 1, .func _ => "function"
  | fuel + 1, .arr _ _ xs =>
      String.intercalate ","
        (xs.map (fun x =>
          match x with
          | .undef => ""
          | .null => ""
          | y => jsToString clsName fuel y))
  | _ + 1, .obj _ _ _ => "[object Object]"
  | fuel + 1, .inst i c fs =>
      let idOrName :=
        if jsTruthy (getProp (.inst i c fs) "id") then getProp (.inst i c fs) "id"
        else getProp (.inst i c fs) "name"
      "<" ++ clsName c ++ ":" ++ jsToString clsName fuel idOrName ++ ">"

/-- `parseFloat(v)`: converts the argument to a string and parses its
longest leading numeric run, `NaN` when there is none.  A value that is
already a number parses back to itself (`parseFloat(String(n)) = n` for
the integer numbers of this model), taken as a short-cut so that the
definition reduces without inspecting the decimal text. -/
def jsParseFloat (clsName : Nat → String) (fuel : Nat) (v : Value) : Value :=
  match v with
  | .num n => .num n
  | _ =>
      match parseIntLead (trimWs (jsToString clsName fuel v)) with
      | some n => .num n
      | none => .nan

/-- `JSON.parse` restricted to atomic JSON texts (the literals `true`,
`false`, `null`, integer numerals, and escape-free quoted strings).
Composite JSON texts are outside the modelled scope; every text the claims
exercise is atomic.  `none` is the `SyntaxError` outcome. -/
def jsonParseAtom (s : String) : Option Value :=
  let t := trimWs s
  if t = "true" then some (.bool true)
  else if t = "false" then some (.bool false)
  else if t = "null" then some .null
  else
    match parseIntStr t with
    | some n => some (.num n)
    | none =>
        match t.data with
        | '"' :: rest =>
            if rest ≠ [] ∧ rest.getLast? = some '"' ∧
                (rest.dropLast.all (fun c => c ≠ '"' ∧ c ≠ '\\')) then
              some (.str (String.mk rest.dropLast))
            else none
        | _ => none

/-- An Enum singleton (src/enums/Enum.js): an instance whose own
enumerable properties are the member values; `name` models the static
`name` getter overridden by each derived enum class. -/
structure EnumDef where
  name : String
  props : List (String × Value)

/-- `get values()`: `Object.keys(this).map(k => this[k])`. -/
def EnumDef.values (e : EnumDef) : List Value := e.props.map (fun p => p.2)

/-- `hasValue(val)`: `!!this.values.contains(val)`.  The `contains` array
method is membership under `===` (the spec consumes the Enumerated Value
Type as an external membership-testing capability). -/
def EnumDef.hasValue (e : EnumDef) (v : Value) : Bool :=
  e.values.any (fun w => jsStrictEq w v)

/-- The three field-descriptor constructors, told apart in the source by
`instanceof` checks on `AttrFieldDef` / `FragmentFieldDef` /
`FragmentArrayFieldDef`. -/
inductive FKind where
  | attr
  | fragment
  | fragmentArray
deriving DecidableEq

/-- The `type` slot of a field descriptor: a kind-name string for `attr`
fields, a model-class reference for fragment kinds. -/
inductive FType where
  | attrT (s : String)
  | classT (c : Nat)
deriving DecidableEq

/-- A field descriptor: `{key, type}` plus the options object spread onto
it by `setProperties` (`apiKey`, `defaultValue`, `serialize`, `enumType`).
`none` models an absent (undefined) option; `key` is filled in by
`getFieldDefs`, not at declaration time. -/
structure FieldDef where
  kind : FKind
  type : FType
  key : Option String := none
  apiKey : Option String := none
  defaultValue : Option Value := none
  serializeOpt : Option Bool := none
  enumType : Option EnumDef := none

/-- `SerializableModel.attr(type, options)` with no options. -/
def attrDef (t : String) : FieldDef := { kind := .attr, type := .attrT t }

/-- `SerializableModel.fragment(type)`. -/
def fragmentDef (c : Nat) : FieldDef := { kind := .fragment, type := .classT c }

/-- `SerializableModel.fragmentArray(type)`. -/
def fragmentArrayDef (c : Nat) : FieldDef :=
  { kind := .fragmentArray, type := .classT c }

/-- A record type: its class-field initializers (all field descriptors in
this library) in declaration order, and the superclass it extends when it
does not extend `SerializableModel` directly. -/
structure ClassDecl where
  name : String
  parent : Option Nat := none
  fieldInits : List (String × FieldDef)

/-- The set of declared record types; a class reference is an index into
this list. -/
def Env := List ClassDecl

def getClass (env : Env) (c : Nat) : Option ClassDecl := List.get? env c

/-- Class name as `constructor.name` would report it. -/
def classNameOf (env : Env) (c : Nat) : String :=
  ((getClass env c).map ClassDecl.name).getD ""

/-- Apply the child field initializers over the inherited ones, as the
instance-field initializer chain does (superclass initializers run first;
a redeclared name keeps its original position but takes the child value). -/
def assignFields (base child : List (String × FieldDef)) :
    List (String × FieldDef) :=
  child.foldl (fun acc p => upsertField acc p.1 p.2) base

/-- The enumerable own fields of a representative instance `new this()`:
all initializers along the inheritance chain.  The walk is bounded by the
environment size; a cyclic parent chain (which would not terminate in
JavaScript either) is outside the modelled scope. -/
def protoFieldsAux (env : Env) : Nat → Nat → List (String × FieldDef)
  | 0, _ => []
  | fuel + 1, c =>
      match getClass env c with
      | none => []
      | some d =>
          match d.parent with
          | none => d.fieldInits
          | some p => assignFields (protoFieldsAux env fuel p) d.fieldInits

def protoFields (env : Env) (c : Nat) : List (String × FieldDef) :=
  protoFieldsAux env (env.length + 1) c

/-- A derived schema.  `id` is the allocation label of the cached
dictionary object, so that "identical cached object" and "distinct
objects" are expressible. -/
structure Schema where
  id : Nat
  defs : List (String × FieldDef)

/-- Mutable engine state: the per-class `_fieldDefs` static caches, and
the next fresh allocation label. -/
structure St where
  cache : List (Nat × Schema)
  ctr : Nat

def St.empty : St := ⟨[], 0⟩

def setCtr (st : St) (n : Nat) : St := ⟨st.cache, n⟩

def bumpCtr (st : St) : St := ⟨st.cache, st.ctr + 1⟩

/-- The read `this._fieldDefs` in `getFieldDefs`: a static-property
lookup, which in JavaScript resolves through the class inheritance chain,
so a subclass sees a cache entry written on any of its ancestors. -/
def lookupFieldDefsAux (env : Env) (cache : List (Nat × Schema)) :
    Nat → Nat → Option Schema
  | 0, _ => none
  | fuel + 1, c =>
      match cache.lookup c with
      | some s => some s
      | none =>
          match getClass env c with
          | none => none
          | some d =>
              match d.parent with
              | none => none
              | some p => lookupFieldDefsAux env cache fuel p

def lookupFieldDefs (env : Env) (cache : List (Nat × Schema)) (c : Nat) :
    Option Schema :=
  lookupFieldDefsAux env cache (env.length + 1) c

/-- `static getFieldDefs()`: return the cached schema when the static
lookup finds one; otherwise derive the schema from a representative
instance (assigning each descriptor `key`), cache it on this exact class,
and return it. -/
def getFieldDefs (env : Env) (c : Nat) (st : St) : Schema × St :=
  match lookupFieldDefs env st.cache c with
  | some s => (s, st)
  | none =>
      let defs := (protoFields env c).map (fun p => (p.1, { p.2 with key := some p.1 }))
      let s : Schema := ⟨st.ctr, defs⟩
      (s, ⟨(c, s) :: st.cache, st.ctr + 1⟩)

/-- `static getFieldNames()`. -/
def getFieldNames (env : Env) (c : Nat) (st : St) : List String × St :=
  let (s, st1) := getFieldDefs env c st
  (s.defs.map (fun p => p.1), st1)

/-- Thrown JavaScript errors.  `parseErr` is the SyntaxError raised by
`JSON.parse`; `validationErr` is the failure raised by the `assert`
helper, modelled from the spec (a ValidationError carrying the message);
`outOfFuel` is an artifact of the bounded embedding, never produced at
adequate fuel. -/
inductive JsErr where
  | typeErr (msg : String)
  | parseErr (msg : String)
  | validationErr (msg : String)
  | outOfFuel

abbrev Res (α : Type) := Except JsErr α

/-- The second `switch(fieldDef.type)` of `getValueOrDefault`: coercion of
a present value by declared kind.  The `enum` case runs the `assert`
(membership in the enum type) and then falls out of the switch to
`return val`; any unrecognized type also reaches `return val`. -/
def coerceByType (fuel : Nat) (env : Env) (d : FieldDef) (val : Value)
    (ctr : Nat) : Res (Value × Nat) :=
  match d.type with
  | .attrT "string" =>
      .ok (if isNone val then .str "" else .str (jsToString (classNameOf env) fuel val), ctr)
  | .attrT "number" =>
      .ok ((if jsIsNaN val then .num 0 else jsParseFloat (classNameOf env) fuel val), ctr)
  | .attrT "boolean" =>
      match jsonParseAtom (jsToString (classNameOf env) fuel val) with
      | some j => .ok (.bool (jsTruthy j), ctr)
      | none =>
          .error (.parseErr ("Unexpected token in JSON: " ++
            jsToString (classNameOf env) fuel val))
  | .attrT "array" =>
      match val with
      | .arr _ _ _ => .ok (val, ctr)
      | _ => .ok (.arr ctr false [], ctr + 1)
  | .attrT "enum" =>
      match d.enumType with
      | some e =>
          if e.hasValue val then .ok (val, ctr)
          else
            .error (.validationErr ("Unknown " ++ e.name ++ " enum value: " ++
              jsToString (classNameOf env) fuel val))
      | none => .error (.typeErr "fieldDef.enumType is undefined")
  | _ => .ok (val, ctr)

/-- The `defaultVal` computation of `getValueOrDefault`: the declared
`defaultValue`, invoked when it is a zero-argument producer; `undefined`
when none is declared. -/
def resolveDefault (dv : Option Value) : Value :=
  match dv with
  | some (.func ret) => ret
  | some v => v
  | none => Value.undef

/-- The first `switch(fieldDef.type)` of `getValueOrDefault`: the
kind-specific zero default for the five handled kinds; any other type
falls out of the switch and continues with the (still empty) value into
the coercion switch. -/
def kindDefault (fuel : Nat) (env : Env) (d : FieldDef) (val : Value)
    (ctr : Nat) : Res (Value × Nat) :=
  match d.type with
  | .attrT "number" => .ok (.null, ctr)
  | .attrT "boolean" => .ok (.bool false, ctr)
  | .attrT "string" => .ok (.str "", ctr)
  | .attrT "enum" => .ok (.null, ctr)
  | .attrT "array" => .ok (.arr ctr false [], ctr + 1)
  | _ => coerceByType fuel env d val ctr

/-- `getValueOrDefault(fieldDef, val)`: empty values resolve a default
(the declared `defaultValue`, invoked when it is a producer, else a
kind-specific zero for the five handled kinds, else falling through to the
coercion switch with the still-empty value); a producer value is invoked
and returned directly; otherwise the value is coerced by declared kind. -/
def getValueOrDefault (fuel : Nat) (env : Env) (d : FieldDef) (val : Value)
    (ctr : Nat) : Res (Value × Nat) :=
  if isEmpty val then
    if ¬ (resolveDefault d.defaultValue).isUndef then
      .ok (resolveDefault d.defaultValue, ctr)
    else kindDefault fuel env d val ctr
  else
    match val with
    | .func ret => .ok (ret, ctr)
    | _ => coerceByType fuel env d val ctr

/-- The per-field body of `create`: look the key up in the initial values,
fall back to the descriptor `defaultValue` when absent, then coerce attr
and fragment fields through `getValueOrDefault` and default fragment-array
fields with `val || []`. -/
def createFields (fuel : Nat) (env : Env) :
    List (String × FieldDef) → List (String × Value) → St →
    Res (List (String × Value) × St)
  | [], _, st => .ok ([], st)
  | (key, d) :: rest, initialProps, st =>
      let v0 := (initialProps.lookup key).getD .undef
      let val := if v0.isUndef then (d.defaultValue.getD .undef) else v0
      let fieldRes : Res (Value × St) :=
        match d.kind with
        | .attr | .fragment =>
            match getValueOrDefault fuel env d val st.ctr with
            | .error e => .error e
            | .ok (w, n) => .ok (w, setCtr st n)
        | .fragmentArray =>
            if jsTruthy val then .ok (val, st)
            else .ok (.arr st.ctr false [], bumpCtr st)
      match fieldRes with
      | .error e => .error e
      | .ok (w, st1) =>
          match createFields fuel env rest initialProps st1 with
          | .error e => .error e
          | .ok (ps, st2) => .ok ((key, w) :: ps, st2)

/-- `static create(props)`: copy the supplied properties, replace every
schema field with its initial or default value, and assign the result onto
a new instance.  Non-schema properties in `props` are assigned through as
well.  Result fields sit in schema order (the field initializers created
them first) followed by the extra properties in supply order. -/
def createF (fuel : Nat) (env : Env) (c : Nat) (props : Value) (st : St) :
    Res (Value × St) :=
  let initialProps : List (String × Value) :=
    match props with
    | .obj _ _ fs => fs
    | .inst _ _ fs => fs
    | _ => []
  let (schema, st1) := getFieldDefs env c st
  match createFields fuel env schema.defs initialProps st1 with
  | .error e => .error e
  | .ok (vals, st2) =>
      let extras := initialProps.filter
        (fun p => ¬ schema.defs.any (fun q => q.1 == p.1))
      .ok (.inst st2.ctr c (vals ++ extras), bumpCtr st2)

/-- Map a label-threading function over the values of an assoc list. -/
def mapAccumFields (f : Value → Nat → Value × Nat) :
    List (String × Value) → Nat → List (String × Value) × Nat
  | [], n => ([], n)
  | (k, v) :: fs, n =>
      let (v1, n1) := f v n
      let (fs1, n2) := mapAccumFields f fs n1
      ((k, v1) :: fs1, n2)

/-- Map a label-threading function over a list of values. -/
def mapAccumElems (f : Value → Nat → Value × Nat) :
    List Value → Nat → List Value × Nat
  | [], n => ([], n)
  | x :: xs, n =>
      let (x1, n1) := f x n
      let (xs1, n2) := mapAccumElems f xs n1
      (x1 :: xs1, n2)

/-- Modelled from the spec: the case-transform pair (`camelizeObject` as
`toInternal`, `classifyObject` as `toExternal`).  Each recursively renames
the keys of arbitrarily nested plain-data objects and sequences and leaves
record-instance subtrees untouched, producing a rebuilt tree rather than
mutating the (frozen) input.  Keys in this embedding are already in their
internal form, so the renaming itself is the identity on names; the
rebuild allocates fresh, unfrozen nodes, which is what the transform pair
contributes behaviourally. -/
def rebuildTree : Nat → Value → Nat → Value × Nat
  | 0, v, n => (v, n)
  | fuel + 1, .obj _ _ fs, n =>
      let (fs1, n1) := mapAccumFields (rebuildTree fuel) fs n
      (.obj n1 false fs1, n1 + 1)
  | fuel + 1, .arr _ _ xs, n =>
      let (xs1, n1) := mapAccumElems (rebuildTree fuel) xs n
      (.arr n1 false xs1, n1 + 1)
  | _ + 1, v, n => (v, n)

def camelizeObject : Nat → Value → Nat → Value × Nat := rebuildTree

def classifyObject : Nat → Value → Nat → Value × Nat := rebuildTree

/-- Whether the camelized input is `null` or `undefined` (the early-return
check in `deserialize`). -/
def Value.isNullish : Value → Bool
  | .null | .undef => true
  | _ => false

/-- The fragment-array element walk of `deserialize`:
`val.map(v => def.type.deserialize(v))`, generic in the recursive
deserializer so that every definition stays structurally recursive. -/
def deserializeElemsGen (dsr : Nat → Value → St → Res (Value × Value × St))
    (c : Nat) : List Value → St → Res (List Value × St)
  | [], st => .ok ([], st)
  | x :: xs, st =>
      match dsr c x st with
      | .error e => .error e
      | .ok (_, r, st1) =>
          match deserializeElemsGen dsr c xs st1 with
          | .error e => .error e
          | .ok (rs, st2) => .ok (r :: rs, st2)

/-- The per-field body of `deserialize`: read the value at
`(def.apiKey || key)` from the camelized tree — a single read, with no
fallback to the other name — then dispatch on the descriptor kind. -/
def deserializeFieldsGen (dsr : Nat → Value → St → Res (Value × Value × St))
    (cfuel : Nat) (env : Env) :
    List (String × FieldDef) → Value → St → Res (List (String × Value) × St)
  | [], _, st => .ok ([], st)
  | (key, d) :: rest, v, st =>
      let apiKey := d.apiKey.getD key
      let val := getProp v apiKey
      let fieldRes : Res (Value × St) :=
        match d.kind with
        | .attr =>
            match getValueOrDefault cfuel env d val st.ctr with
            | .error e => .error e
            | .ok (w, n) => .ok (w, setCtr st n)
        | .fragment =>
            match d.type with
            | .classT c2 =>
                match dsr c2 val st with
                | .error e => .error e
                | .ok (_, r, st1) => .ok (r, st1)
            | .attrT _ => .error (.typeErr "def.type.deserialize is not a function")
        | .fragmentArray =>
            match val with
            | .arr _ _ xs =>
                match d.type with
                | .classT c2 =>
                    match deserializeElemsGen dsr c2 xs st with
                    | .error e => .error e
                    | .ok (rs, st1) => .ok (.arr st1.ctr false rs, bumpCtr st1)
                | .attrT _ =>
                    match xs with
                    | [] => .ok (.arr st.ctr false [], bumpCtr st)
                    | _ => .error (.typeErr "def.type.deserialize is not a function")
            | _ => .ok (.arr st.ctr false [], bumpCtr st)
      match fieldRes with
      | .error e => .error e
      | .ok (w, st1) =>
          match deserializeFieldsGen dsr cfuel env rest v st1 with
          | .error e => .error e
          | .ok (ps, st2) => .ok ((key, w) :: ps, st2)

/-- `static deserialize(json)`.  Returns the post-call state of the
caller's argument (string arguments are unaffected; object arguments come
back with their top level frozen), the resulting instance (or `null` for a
nullish input), and the updated engine state. -/
def deserializeF : Nat → Env → Nat → Value → St → Res (Value × Value × St)
  | 0, _, _, _, _ => .error .outOfFuel
  | fuel + 1, env, c, input, st =>
      let parsed : Res (Value × Bool) :=
        match input with
        | .str s =>
            match jsonParseAtom s with
            | some p => .ok (p, true)
            | none => .error (.parseErr ("Unexpected token in JSON: " ++ s))
        | j => .ok (j, false)
      match parsed with
      | .error e => .error e
      | .ok (j, wasStr) =>
          let fj := freezeTop j
          let argAfter := if wasStr then input else fj
          let (camelized, n1) := camelizeObject (fuel + 1) fj st.ctr
          let st1 := setCtr st n1
          if camelized.isNullish then .ok (argAfter, .null, st1)
          else
            let (schema, st2) := getFieldDefs env c st1
            match
              deserializeFieldsGen
                (fun c2 v2 s2 => deserializeF fuel env c2 v2 s2)
                (fuel + 1) env schema.defs camelized st2 with
            | .error e => .error e
            | .ok (params, st3) =>
                let pobj : Value := .obj st3.ctr false params
                match createF (fuel + 1) env c pobj (bumpCtr st3) with
                | .error e => .error e
                | .ok (i, st4) => .ok (argAfter, i, st4)

/-- `v && v.serialize`: model instances carry `serialize` on their
prototype; on any other truthy value only an own `serialize` property
counts. -/
def serializeOne (ser : Value → St → Value × St) (v : Value) (st : St) :
    Value × St :=
  match v with
  | .inst i c fs => ser (.inst i c fs) st
  | _ =>
      match getProp v "serialize" with
      | .func ret => (ret, st)
      | _ => (.null, st)

/-- The fragment-array element walk of `serialize`:
`val.map(v => v && v.serialize ? v.serialize(options) : null)`. -/
def serializeElemsGen (ser : Value → St → Value × St) :
    List Value → St → List Value × St
  | [], st => ([], st)
  | x :: xs, st =>
      let (r, st1) :=
        if jsTruthy x then serializeOne ser x st else (.null, st)
      let (rs, st2) := serializeElemsGen ser xs st1
      (r :: rs, st2)

/-- The per-field body of `serialize`: fields whose `serialize` option is
`false` are omitted from the output entirely; fragments recurse (with a
class-level fallback that the model classes do not provide, so an
unsupported truthy value becomes `null` after a diagnostic); fragment
arrays map their elements when the value is an array and then apply
`val || []`; the result is written under `(def.apiKey || key)`. -/
def serializeFieldsGen (ser : Value → St → Value × St) (this : Value) :
    List (String × FieldDef) → St → List (String × Value) × St
  | [], st => ([], st)
  | (key, d) :: rest, st =>
      if d.serializeOpt == some false then
        serializeFieldsGen ser this rest st
      else
        let apiKey := d.apiKey.getD key
        let val := getProp this key
        let (w, st1) :=
          match d.kind with
          | .fragment =>
              if jsTruthy val then serializeOne ser val st else (.null, st)
          | .fragmentArray =>
              match val with
              | .arr _ _ xs =>
                  let (rs, stA) := serializeElemsGen ser xs st
                  (.arr stA.ctr false rs, bumpCtr stA)
              | _ =>
                  if jsTruthy val then (val, st)
                  else (.arr st.ctr false [], bumpCtr st)
          | .attr => (val, st)
        let (ps, st2) := serializeFieldsGen ser this rest st1
        ((apiKey, w) :: ps, st2)

/-- `serialize(options)`: walk the schema building a plain object keyed by
wire keys, then classify it through the case transform.  The options
object plays no role in the core walk.  Calling `serialize` on a non-
instance value is not a code path of the library (it is an instance
method) and yields `undefined` here. -/
def serializeF : Nat → Env → Value → St → Value × St
  | 0, _, _, st => (.undef, st)
  | fuel + 1, env, this, st =>
      match this with
      | .inst i c fs =>
          let (schema, st1) := getFieldDefs env c st
          let (fields, st2) :=
            serializeFieldsGen (fun v s => serializeF fuel env v s)
              (.inst i c fs) schema.defs st1
          let robj : Value := .obj st2.ctr false fields
          let st3 := bumpCtr st2
          let (out, n) := classifyObject (fuel + 1) robj st3.ctr
          (out, setCtr st3 n)
      | _ => (.undef, st)

/-- `JSON.parse(JSON.stringify(v))` element copy inside an array: an
element that stringifies to nothing (`undefined`, a function) or to the
`null` text (`NaN`) becomes `null`. -/
def jsonCopyElemsGen (cp : Value → Nat → Res (Value × Nat)) :
    List Value → Nat → Res (List Value × Nat)
  | [], n => .ok ([], n)
  | x :: xs, n =>
      let one : Res (Value × Nat) :=
        match x with
        | .undef => .ok (.null, n)
        | .func _ => .ok (.null, n)
        | y => cp y n
      match one with
      | .error e => .error e
      | .ok (x1, n1) =>
          match jsonCopyElemsGen cp xs n1 with
          | .error e => .error e
          | .ok (xs1, n2) => .ok (x1 :: xs1, n2)

/-- `JSON.parse(JSON.stringify(v))` property copy inside an object or
instance: properties holding `undefined` or a function are dropped. -/
def jsonCopyFieldsGen (cp : Value → Nat → Res (Value × Nat)) :
    List (String × Value) → Nat → Res (List (String × Value) × Nat)
  | [], n => .ok ([], n)
  | (k, v) :: fs, n =>
      match v with
      | .undef => jsonCopyFieldsGen cp fs n
      | .func _ => jsonCopyFieldsGen cp fs n
      | v =>
          match cp v n with
          | .error e => .error e
          | .ok (v1, n1) =>
              match jsonCopyFieldsGen cp fs n1 with
              | .error e => .error e
              | .ok (fs1, n2) => .ok ((k, v1) :: fs1, n2)

/-- The generic deep copy `JSON.parse(JSON.stringify(val))` used by
`clone` for values that do not support cloning.  `JSON.stringify` of
`undefined` or a function yields no text, so the subsequent `JSON.parse`
throws a SyntaxError; `NaN` serializes as the `null` text; arrays and
objects are rebuilt with fresh labels; an instance copies to a plain
object of its own enumerable properties. -/
def jsonDeepCopy : Nat → Value → Nat → Res (Value × Nat)
  | 0, _, _ => .error .outOfFuel
  | _ + 1, .undef, _ => .error (.parseErr "undefined is not valid JSON")
  | _ + 1, .func _, _ => .error (.parseErr "undefined is not valid JSON")
  | _ + 1, .nan, n => .ok (.null, n)
  | _ + 1, .null, n => .ok (.null, n)
  | _ + 1, .bool b, n => .ok (.bool b, n)
  | _ + 1, .num m, n => .ok (.num m, n)
  | _ + 1, .str s, n => .ok (.str s, n)
  | fuel + 1, .arr _ _ xs, n =>
      match jsonCopyElemsGen (jsonDeepCopy fuel) xs n with
      | .error e => .error e
      | .ok (xs1, n1) => .ok (.arr n1 false xs1, n1 + 1)
  | fuel + 1, .obj _ _ fs, n =>
      match jsonCopyFieldsGen (jsonDeepCopy fuel) fs n with
      | .error e => .error e
      | .ok (fs1, n1) => .ok (.obj n1 false fs1, n1 + 1)
  | fuel + 1, .inst _ _ fs, n =>
      match jsonCopyFieldsGen (jsonDeepCopy fuel) fs n with
      | .error e => .error e
      | .ok (fs1, n1) => .ok (.obj n1 false fs1, n1 + 1)

/-- `val && val.clone ? val.clone() : JSON.parse(JSON.stringify(val))`:
model instances carry `clone` on their prototype; on any other truthy
value only an own `clone` property (a stored producer) counts. -/
def cloneOne (cl : Value → St → Res (Value × St)) (jfuel : Nat) (v : Value)
    (st : St) : Res (Value × St) :=
  if jsTruthy v then
    match v with
    | .inst i c fs => cl (.inst i c fs) st
    | _ =>
        match getProp v "clone" with
        | .func ret => .ok (ret, st)
        | _ =>
            match jsonDeepCopy jfuel v st.ctr with
            | .error e => .error e
            | .ok (w, n) => .ok (w, setCtr st n)
  else
    match jsonDeepCopy jfuel v st.ctr with
    | .error e => .error e
    | .ok (w, n) => .ok (w, setCtr st n)

/-- The fragment-array element walk of `clone`. -/
def cloneElemsGen (cl : Value → St → Res (Value × St)) (jfuel : Nat) :
    List Value → St → Res (List Value × St)
  | [], st => .ok ([], st)
  | x :: xs, st =>
      match cloneOne cl jfuel x st with
      | .error e => .error e
      | .ok (x1, st1) =>
          match cloneElemsGen cl jfuel xs st1 with
          | .error e => .error e
          | .ok (xs1, st2) => .ok (x1 :: xs1, st2)

/-- The per-field body of `clone`: attr values are taken as they are
(the very same node), fragment values are cloned or deep-copied, fragment
arrays map each element the same way (a non-array value is deep-copied
whole). -/
def cloneFieldsGen (cl : Value → St → Res (Value × St)) (jfuel : Nat)
    (this : Value) :
    List (String × FieldDef) → St → Res (List (String × Value) × St)
  | [], st => .ok ([], st)
  | (key, d) :: rest, st =>
      let fieldRes : Res (Value × St) :=
        match d.kind with
        | .attr => .ok (getProp this key, st)
        | .fragment => cloneOne cl jfuel (getProp this key) st
        | .fragmentArray =>
            match getProp this key with
            | .arr _ _ xs =>
                match cloneElemsGen cl jfuel xs st with
                | .error e => .error e
                | .ok (xs1, st1) => .ok (.arr st1.ctr false xs1, bumpCtr st1)
            | a =>
                match jsonDeepCopy jfuel a st.ctr with
                | .error e => .error e
                | .ok (w, n) => .ok (w, setCtr st n)
      match fieldRes with
      | .error e => .error e
      | .ok (w, st1) =>
          match cloneFieldsGen cl jfuel this rest st1 with
          | .error e => .error e
          | .ok (ps, st2) => .ok ((key, w) :: ps, st2)

/-- `clone()`: build a plain object of per-field copies and pass it back
through `this.constructor.create`. -/
def cloneF : Nat → Env → Value → St → Res (Value × St)
  | 0, _, _, _ => .error .outOfFuel
  | fuel + 1, env, this, st =>
      match this with
      | .inst i c fs =>
          let (schema, st1) := getFieldDefs env c st
          match
            cloneFieldsGen (fun v s => cloneF fuel env v s) (fuel + 1)
              (.inst i c fs) schema.defs st1 with
          | .error e => .error e
          | .ok (jfields, st2) =>
              let jobj : Value := .obj st2.ctr false jfields
              createF (fuel + 1) env c jobj (bumpCtr st2)
      | _ => .ok (.undef, st)

/-- `isEqual(toModel)`: the source reads `this.getFieldNames`, but
`getFieldNames` is a static method — it lives on the constructor, not on
the prototype chain of the instance — so the property lookup on the
instance yields `undefined` unless a data field happens to shadow it, and
the call throws a TypeError.  The shadowing branch (a stored producer
returning an array of field names) is modelled for completeness. -/
def isEqualF (fuel : Nat) (env : Env) (this other : Value) :
    Res Bool :=
  match getProp this "getFieldNames" with
  | .func (.arr _ _ keys) =>
      .ok (keys.all (fun kv =>
        let k := jsToString (classNameOf env) fuel kv
        jsStrictEq (getProp this k) (getProp other k)))
  | .func _ => .error (.typeErr "fields.every is not a function")
  | _ => .error (.typeErr "this.getFieldNames is not a function")

/-- Whether a value is an array (used to state the fragment-array
serialization claims). -/
def Value.isArr : Value → Bool
  | .arr _ _ _ => true
  | _ => false

/-! ### Concrete record types and enums shared by the claim theorems -/

/-- The Country enum of the readme: members Australia and UnitedKingdom. -/
def countryEnum : EnumDef :=
  ⟨"Country", [("Australia", .str "Australia"), ("UnitedKingdom", .str "UnitedKingdom")]⟩

/-- An enum attr declared over the Country enum. -/
def countryFieldDef : FieldDef := { attrDef "enum" with enumType := some countryEnum }

/-- The Address record type of the readme, reduced to its country field. -/
def addrEnv : Env := [⟨"Address", none, [("country", attrDef "string")]⟩]

/-- A string attr with a wire-key override. -/
def strAttrApiKey (w : String) : FieldDef :=
  ⟨.attr, .attrT "string", none, some w, none, none, none⟩

/-- A record type with a wire-key override on its only field. -/
def overrideEnv : Env :=
  [⟨"M", none, [("name", strAttrApiKey "wireName")]⟩]

/-- A Base record type and a Sub record type extending it with one more
field. -/
def subclassEnv : Env :=
  [⟨"Base", none, [("a", attrDef "string")]⟩,
   ⟨"Sub", some 0, [("b", attrDef "string")]⟩]

/-- A record type A with one string field, and a record type C holding an
array attr and a fragment of A. -/
def fragEnv : Env :=
  [⟨"A", none, [("score", attrDef "number")]⟩,
   ⟨"C", none, [("tags", attrDef "array"), ("f", fragmentDef 0)]⟩]

/-- A record type A with one string field, and a record type C holding a
fragment array of A. -/
def fragArrEnv : Env :=
  [⟨"A", none, [("name", attrDef "string")]⟩,
   ⟨"C", none, [("items", fragmentArrayDef 0)]⟩]

/-- A record type with one field of each of the string, number and
boolean kinds. -/
def scalarEnv : Env :=
  [⟨"T", none, [("s", attrDef "string"), ("n", attrDef "number"), ("b", attrDef "boolean")]⟩]

/-- A record type A with one string field, and a record type C holding a
single fragment of A. -/
def fragOnlyEnv : Env :=
  [⟨"A", none, [("name", attrDef "string")]⟩,
   ⟨"C", none, [("f", fragmentDef 0)]⟩]

/-! ### General lemmas about the embedding -/

theorem lookupFieldDefsAux_nil (env : Env) :
    ∀ (fuel c : Nat), lookupFieldDefsAux env [] fuel c = none := by
  intro fuel
  induction fuel with
  | zero => intro c; rfl
  | succ n ih =>
      intro c
      show lookupFieldDefsAux env [] (n + 1) c = none
      unfold lookupFieldDefsAux
      simp only [List.lookup_nil]
      match h : getClass env c with
      | none => simp [h]
      | some d =>
          match hp : d.parent with
          | none => simp [h, hp]
          | some p => simp [h, hp, ih p]

theorem rebuildTree_prim (fuel : Nat) (v : Value) (n : Nat)
    (h : v.isPrim = true) : rebuildTree fuel v n = (v, n) := by
  cases fuel with
  | zero => rfl
  | succ m => cases v <;> simp_all [Value.isPrim, rebuildTree]

theorem mapAccumFields_prim (fuel : Nat) (fs : List (String × Value)) (n : Nat)
    (h : ∀ p ∈ fs, (p.2).isPrim = true) :
    mapAccumFields (rebuildTree fuel) fs n = (fs, n) := by
  induction fs generalizing n with
  | nil => rfl
  | cons p rest ih =>
      have hp : (p.2).isPrim = true := h p (by simp)
      have hrest : ∀ q ∈ rest, (q.2).isPrim = true := fun q hq => h q (by simp [hq])
      simp [mapAccumFields, rebuildTree_prim fuel p.2 n hp, ih n hrest]

theorem rebuildTree_obj_prim (fuel : Nat) (id : Nat) (fr : Bool)
    (fs : List (String × Value)) (n : Nat)
    (h : ∀ p ∈ fs, (p.2).isPrim = true) :
    rebuildTree (fuel + 1) (.obj id fr fs) n = (.obj n false fs, n + 1) := by
  simp [rebuildTree, mapAccumFields_prim fuel fs n h]

theorem lookup_map_of_nodup {α : Type} (f : String × FieldDef → String)
    (g : String × FieldDef → α) (defs : List (String × FieldDef))
    (h : (defs.map f).Nodup) (q : String × FieldDef) (hq : q ∈ defs) :
    (defs.map (fun p => (f p, g p))).lookup (f q) = some (g q) := by
  induction defs with
  | nil => cases hq
  | cons p rest ih =>
      rcases List.mem_cons.mp hq with hqe | hqr
      · subst hqe
        simp [List.lookup]
      · have h1 : f p ∉ rest.map f := (List.nodup_cons.mp h).1
        have hrest : (rest.map f).Nodup := (List.nodup_cons.mp h).2
        have hne : (f q == f p) = false := by
          apply beq_eq_false_iff_ne.mpr
          intro he
          exact h1 (he ▸ List.mem_map_of_mem f hqr)
        simp only [List.map_cons, List.lookup, hne]
        exact ih hrest hqr

theorem getValueOrDefault_key (fuel : Nat) (env : Env) (d : FieldDef)
    (k : Option String) (val : Value) (ctr : Nat) :
    getValueOrDefault fuel env { d with key := k } val ctr =
      getValueOrDefault fuel env d val ctr := by
  cases d; rfl

/-- Schema derivation annotates each descriptor with its key. -/
def annotate (defs : List (String × FieldDef)) : List (String × FieldDef) :=
  defs.map (fun p => (p.1, { p.2 with key := some p.1 }))

theorem protoFields_root (env : Env) (c : Nat) (decl : ClassDecl)
    (h : getClass env c = some decl) (hp : decl.parent = none) :
    protoFields env c = decl.fieldInits := by
  show protoFieldsAux env (env.length + 1) c = decl.fieldInits
  unfold protoFieldsAux
  simp [h, hp]

theorem getFieldDefs_empty (env : Env) (c : Nat) (st : St)
    (h : st.cache = []) :
    getFieldDefs env c st =
      (⟨st.ctr, annotate (protoFields env c)⟩,
        ⟨[(c, ⟨st.ctr, annotate (protoFields env c)⟩)], st.ctr + 1⟩) := by
  unfold getFieldDefs lookupFieldDefs
  rw [h, lookupFieldDefsAux_nil]
  rfl

theorem lookupFieldDefs_head (env : Env) (c : Nat) (s : Schema)
    (rest : List (Nat × Schema)) :
    lookupFieldDefs env ((c, s) :: rest) c = some s := by
  show lookupFieldDefsAux env ((c, s) :: rest) (env.length + 1) c = some s
  unfold lookupFieldDefsAux
  simp [List.lookup]

theorem getFieldDefs_hit (env : Env) (c : Nat) (st : St) (s : Schema)
    (h : lookupFieldDefs env st.cache c = some s) :
    getFieldDefs env c st = (s, st) := by
  unfold getFieldDefs
  rw [h]

theorem getFieldDefs_cons_self (env : Env) (c : Nat) (s : Schema)
    (rest : List (Nat × Schema)) (n : Nat) :
    getFieldDefs env c ⟨(c, s) :: rest, n⟩ = (s, ⟨(c, s) :: rest, n⟩) :=
  getFieldDefs_hit env c ⟨(c, s) :: rest, n⟩ s (lookupFieldDefs_head env c s rest)

/-! ### Claim C5 -/

/-- C5: for every enum-kind field whose descriptor references an
Enumerated Value Type `e`, coercing a non-empty, non-producer raw value
returns it unchanged when it is a member of `e`, and fails with a
ValidationError naming the enum type and the offending value when it is
not a member. -/
theorem c5_enum_validation (fuel : Nat) (env : Env) (d : FieldDef)
    (e : EnumDef) (val : Value) (ctr : Nat)
    (htype : d.type = .attrT "enum") (henum : d.enumType = some e)
    (hne : isEmpty val = false) (hnf : val.isFunc = false) :
    (e.hasValue val = true →
      getValueOrDefault fuel env d val ctr = .ok (val, ctr)) ∧
    (e.hasValue val = false →
      getValueOrDefault fuel env d val ctr =
        .error (.validationErr ("Unknown " ++ e.name ++ " enum value: " ++
          jsToString (classNameOf env) fuel val))) := by
  constructor <;> intro hmem <;>
    cases val <;>
    simp_all [getValueOrDefault, coerceByType, Value.isFunc, isEmpty]

/-- C5 witness: over the Country enum, the raw value Mars fails with a
ValidationError naming the enum type and the value, and the raw value
Australia passes through unchanged. -/
theorem c5_enum_validation_witness :
    (countryEnum.hasValue (.str "Mars") = false ∧
      getValueOrDefault 1 [] countryFieldDef (.str "Mars") 0 =
        .error (.validationErr "Unknown Country enum value: Mars")) ∧
    (countryEnum.hasValue (.str "Australia") = true ∧
      getValueOrDefault 1 [] countryFieldDef (.str "Australia") 0 =
        .ok (.str "Australia", 0)) := by
  refine ⟨⟨rfl, ?_⟩, ⟨rfl, ?_⟩⟩
  · exact (c5_enum_validation 1 [] countryFieldDef countryEnum (.str "Mars") 0
      rfl rfl rfl rfl).2 rfl
  · exact (c5_enum_validation 1 [] countryFieldDef countryEnum (.str "Australia") 0
      rfl rfl rfl rfl).1 rfl

/-! ### Claim C7 -/

/-- C7 counterexample: on a boolean-kind field the non-empty, non-producer
raw value "yes" does not coerce to a boolean — `JSON.parse` of its string
form throws a SyntaxError — refuting the claim that coercion completes for
any supplied value. -/
theorem c7_counterexample :
    getValueOrDefault 1 [] (attrDef "boolean") (.str "yes") 0 =
      .error (.parseErr "Unexpected token in JSON: yes") := rfl

/-- C7 amended: boolean coercion completes with a normalized native
boolean for native booleans and their textual forms (the raw value is
interpreted as a JSON literal); a raw value whose string form is not valid
JSON text fails with a SyntaxError instead. -/
theorem c7_amended (fuel : Nat) (env : Env) (d : FieldDef) (ctr : Nat)
    (b : Bool) (htype : d.type = .attrT "boolean") :
    getValueOrDefault (fuel + 1) env d (.bool b) ctr = .ok (.bool b, ctr) ∧
    getValueOrDefault (fuel + 1) env d (.str "true") ctr = .ok (.bool true, ctr) ∧
    getValueOrDefault (fuel + 1) env d (.str "false") ctr = .ok (.bool false, ctr) := by
  obtain ⟨kind, type, key, api, dv, so, et⟩ := d
  simp only at htype
  subst htype
  refine ⟨?_, rfl, rfl⟩
  cases b <;> rfl

/-- C7 amended witness: concrete boolean coercions. -/
theorem c7_amended_witness :
    ((attrDef "boolean").type = .attrT "boolean") ∧
    getValueOrDefault 1 [] (attrDef "boolean") (.bool false) 5 =
      .ok (.bool false, 5) ∧
    getValueOrDefault 1 [] (attrDef "boolean") (.str "true") 5 =
      .ok (.bool true, 5) := by
  refine ⟨rfl, ?_, ?_⟩
  · exact (c7_amended 0 [] (attrDef "boolean") 5 false rfl).1
  · exact (c7_amended 0 [] (attrDef "boolean") 5 false rfl).2.1

/-! ### Claim C1 -/

/-- C1 counterexample: a field with wire-key override wireName whose wire
value Bob appears under the internal name instead is not picked up —
deserialization leaves the field at its kind default, the empty string. -/
theorem c1_counterexample :
    (deserializeF 3 overrideEnv 0 (.obj 100 false [("name", .str "Bob")])
        St.empty).map (fun r => getProp r.2.1 "name") = .ok (.str "") ∧
    Value.str "" ≠ .str "Bob" := by
  refine ⟨rfl, ?_⟩
  intro h
  injection h with h2
  exact absurd h2 (by decide)

/-- C1 amended: deserialize reads the value at the single key chosen as
the wireKey override when one is set (else the internal field name); there
is no fallback read, so whenever nothing sits at the override key the
field resolves to its default no matter what sits under the internal
name. -/
theorem c1_amended (env : Env) (c : Nat) (nm k w : String)
    (id : Nat) (fr : Bool) (fs : List (String × Value)) (st : St)
    (hcls : getClass env c = some ⟨nm, none, [(k, strAttrApiKey w)]⟩)
    (hcache : st.cache = [])
    (hprim : ∀ p ∈ fs, (p.2).isPrim = true)
    (habs : fs.lookup w = none) :
    ∃ arg i st2,
      deserializeF 1 env c (.obj id fr fs) st = .ok (arg, i, st2) ∧
      arg = .obj id true fs ∧
      getProp i k = .str "" := by
  obtain ⟨cache, n0⟩ := st
  simp only at hcache
  subst hcache
  have hproto := protoFields_root env c _ hcls rfl
  have hreb := rebuildTree_obj_prim 0 id true fs n0 hprim
  refine ⟨.obj id true fs, .inst (n0 + 3) c [(k, .str "")],
    ⟨[(c, ⟨n0 + 1, [(k, ⟨.attr, .attrT "string", some k, some w, none, none, none⟩)]⟩)],
      n0 + 4⟩, ?_, rfl,
    by simp [getProp, List.lookup]⟩
  show deserializeF (0 + 1) env c (.obj id fr fs) ⟨[], n0⟩ = _
  unfold deserializeF
  simp only [camelizeObject, freezeTop, hreb, setCtr, bumpCtr, Value.isNullish,
    Bool.false_eq_true, if_false,
    getFieldDefs_empty env c ⟨[], n0 + 1⟩ rfl, hproto, annotate,
    List.map_cons, List.map_nil, strAttrApiKey]
  simp only [deserializeFieldsGen, getProp, habs, Option.getD, getValueOrDefault,
    resolveDefault, kindDefault, isEmpty, Value.isUndef, Bool.not_true,
    Bool.not_false, Bool.false_eq_true, if_false, if_true, setCtr, bumpCtr]
  try simp only [not_true, if_false, ite_false, if_true, ite_true,
    eq_self_iff_true, not_false_iff]
  simp only [createF, getFieldDefs_cons_self, createFields, List.lookup,
    beq_self_eq_true, Option.getD, Value.isUndef, Bool.false_eq_true, if_false,
    getValueOrDefault, resolveDefault, kindDefault, isEmpty, setCtr, bumpCtr,
    List.filter, List.any, Bool.not_true, not_true]
  simp

/-- C1 amended witness: the concrete override record with the wire value
sitting under the internal name only. -/
theorem c1_amended_witness :
    ∃ arg i st2,
      deserializeF 1 overrideEnv 0
          (.obj 100 false [("name", .str "Bob")]) St.empty =
        .ok (arg, i, st2) ∧
      arg = .obj 100 true [("name", .str "Bob")] ∧
      getProp i "name" = .str "" :=
  c1_amended overrideEnv 0 "M" "name" "wireName" 100 false
    [("name", .str "Bob")] St.empty rfl rfl (by decide) rfl


/-! ### Claim C2 -/

/-- C2: `isEqual` never returns — the source reads `this.getFieldNames`,
a static method absent from the instance and its prototype chain, so the
call throws a TypeError on every well-formed pair of instances instead of
returning a boolean. -/
theorem c2_isEqual_throws (fuel : Nat) (env : Env) (i c : Nat)
    (fs : List (String × Value)) (other : Value)
    (h : fs.lookup "getFieldNames" = none) :
    isEqualF fuel env (.inst i c fs) other =
      .error (.typeErr "this.getFieldNames is not a function") := by
  unfold isEqualF
  simp [getProp, h]

/-- C2 witness: two instances of the concrete Address record built by
`create`; comparing them throws. -/
theorem c2_isEqual_throws_witness :
    createF 1 addrEnv 0 (.obj 100 false []) St.empty =
      .ok (.inst 1 0 [("country", .str "")],
        ⟨[(0, ⟨0, [("country",
          ⟨.attr, .attrT "string", some "country", none, none, none, none⟩)]⟩)], 2⟩) ∧
    isEqualF 1 addrEnv (.inst 1 0 [("country", .str "")])
        (.inst 1 0 [("country", .str "")]) =
      .error (.typeErr "this.getFieldNames is not a function") :=
  ⟨rfl, c2_isEqual_throws 1 addrEnv 1 0 [("country", .str "")]
    (.inst 1 0 [("country", .str "")]) rfl⟩

/-! ### Claim C3 -/

/-- C3 counterexample: with Base cached first, schema derivation for the
subtype Sub returns the identical Base schema object through the inherited
static cache — it is not a distinct, independently recomputed schema, and
it misses the field b that Sub declares. -/
theorem c3_counterexample :
    ((getFieldDefs subclassEnv 1 (getFieldDefs subclassEnv 0 St.empty).2).1 =
      (getFieldDefs subclassEnv 0 St.empty).1) ∧
    ((getFieldDefs subclassEnv 1
        (getFieldDefs subclassEnv 0 St.empty).2).1.defs.lookup "b" = none) ∧
    ((protoFields subclassEnv 1).lookup "b" = some (attrDef "string")) :=
  ⟨rfl, rfl, rfl⟩

theorem lookupFieldDefs_miss_root (env : Env) (c1 c2 : Nat) (s1 : Schema)
    (d2 : ClassDecl) (hne : c2 ≠ c1) (h2 : getClass env c2 = some d2)
    (hp : d2.parent = none) :
    lookupFieldDefs env [(c1, s1)] c2 = none := by
  show lookupFieldDefsAux env [(c1, s1)] (env.length + 1) c2 = none
  unfold lookupFieldDefsAux
  have hb : (c2 == c1) = false := beq_eq_false_iff_ne.mpr hne
  simp [List.lookup, hb, h2, hp]

/-- C3 amended: repeated schema derivation for one record type returns the
identical cached schema object, and two types whose caches are both cold
and that extend the base directly derive distinct, independently
recomputed schema objects — but the cache read follows the static
inheritance chain, so a subtype can observe its supertype's cached schema
(the counterexample) rather than deriving its own. -/
theorem c3_amended (env : Env) (st : St) (c1 c2 : Nat) (d1 d2 : ClassDecl)
    (h1 : getClass env c1 = some d1) (hp1 : d1.parent = none)
    (h2 : getClass env c2 = some d2) (hp2 : d2.parent = none)
    (hne : c2 ≠ c1) (hcache : st.cache = []) :
    (∀ (env2 : Env) (c : Nat) (st2 : St),
        getFieldDefs env2 c (getFieldDefs env2 c st2).2 =
          getFieldDefs env2 c st2) ∧
    (getFieldDefs env c1 st).1.id ≠
      (getFieldDefs env c2 (getFieldDefs env c1 st).2).1.id ∧
    (getFieldDefs env c1 st).1.defs = annotate d1.fieldInits ∧
    (getFieldDefs env c2 (getFieldDefs env c1 st).2).1.defs =
      annotate d2.fieldInits := by
  have hrepeat : ∀ (env2 : Env) (c : Nat) (st2 : St),
      getFieldDefs env2 c (getFieldDefs env2 c st2).2 =
        getFieldDefs env2 c st2 := by
    intro env2 c st2
    match hl : lookupFieldDefs env2 st2.cache c with
    | some s =>
        rw [getFieldDefs_hit env2 c st2 s hl, getFieldDefs_hit env2 c st2 s hl]
    | none =>
        have hfirst : getFieldDefs env2 c st2 =
            (⟨st2.ctr, annotate (protoFields env2 c)⟩,
              ⟨(c, ⟨st2.ctr, annotate (protoFields env2 c)⟩) :: st2.cache,
                st2.ctr + 1⟩) := by
          unfold getFieldDefs
          rw [hl]
          rfl
        rw [hfirst]
        exact getFieldDefs_hit env2 c _ _ (lookupFieldDefs_head env2 c _ _)
  obtain ⟨cache, n0⟩ := st
  simp only at hcache
  subst hcache
  have hfd1 := getFieldDefs_empty env c1 ⟨[], n0⟩ rfl
  have hmiss := lookupFieldDefs_miss_root env c1 c2
    ⟨n0, annotate (protoFields env c1)⟩ d2 hne h2 hp2
  have hfd2 : getFieldDefs env c2
      (⟨[(c1, ⟨n0, annotate (protoFields env c1)⟩)], n0 + 1⟩ : St) =
      (⟨n0 + 1, annotate (protoFields env c2)⟩,
        ⟨(c2, ⟨n0 + 1, annotate (protoFields env c2)⟩) ::
          [(c1, ⟨n0, annotate (protoFields env c1)⟩)], n0 + 2⟩) := by
    unfold getFieldDefs
    rw [hmiss]
    rfl
  refine ⟨hrepeat, ?_, ?_, ?_⟩
  · rw [hfd1]
    rw [hfd2]
    simp
  · rw [hfd1, protoFields_root env c1 d1 h1 hp1]
  · rw [hfd1]
    rw [hfd2, protoFields_root env c2 d2 h2 hp2]

/-- C3 amended witness: the two sibling record types A and C. -/
theorem c3_amended_witness :
    (∀ (env2 : Env) (c : Nat) (st2 : St),
        getFieldDefs env2 c (getFieldDefs env2 c st2).2 =
          getFieldDefs env2 c st2) ∧
    (getFieldDefs fragOnlyEnv 0 St.empty).1.id ≠
      (getFieldDefs fragOnlyEnv 1 (getFieldDefs fragOnlyEnv 0 St.empty).2).1.id ∧
    (getFieldDefs fragOnlyEnv 0 St.empty).1.defs =
      annotate [("name", attrDef "string")] ∧
    (getFieldDefs fragOnlyEnv 1
        (getFieldDefs fragOnlyEnv 0 St.empty).2).1.defs =
      annotate [("f", fragmentDef 0)] :=
  c3_amended fragOnlyEnv St.empty 0 1
    ⟨"A", none, [("name", attrDef "string")]⟩
    ⟨"C", none, [("f", fragmentDef 0)]⟩
    rfl rfl rfl rfl (by decide) rfl


/-! ### Claim C6 -/

/-- C6 counterexample: a fragment-array field whose current value is the
truthy non-array string hello serializes to that string unchanged, not to
an empty sequence. -/
theorem c6_counterexample :
    (serializeF 3 fragArrEnv (.inst 10 1 [("items", .str "hello")])
        St.empty).1 = .obj 2 false [("items", .str "hello")] ∧
    Value.isArr (getProp ((serializeF 3 fragArrEnv
        (.inst 10 1 [("items", .str "hello")]) St.empty).1) "items") =
      false :=
  ⟨rfl, rfl⟩

/-- C6 amended: under the wire key of a fragment-array field, serialize
writes an empty sequence when the current value is falsy, the element-wise
serialization when the value is an array (elements that support
serialization are serialized, others become null) — but a truthy non-array
value is written through unchanged (the counterexample). -/
theorem c6_amended (val w : Value) (hprim : w.isPrim = true) :
    (jsTruthy val = false →
      (serializeF 3 fragArrEnv (.inst 10 1 [("items", val)]) St.empty).1 =
        .obj 4 false [("items", .arr 3 false [])]) ∧
    ((serializeF 3 fragArrEnv
        (.inst 10 1
          [("items", .arr 7 false [.inst 11 0 [("name", w)], .null])])
        St.empty).1 =
      .obj 8 false
        [("items", .arr 7 false [.obj 6 false [("name", w)], .null])]) := by
  constructor
  · intro hf
    cases val with
    | undef => rfl
    | null => rfl
    | nan => rfl
    | bool b =>
        cases b
        · rfl
        · exact absurd hf (by simp [jsTruthy])
    | num n =>
        have h0 : n = 0 := by simpa [jsTruthy] using hf
        subst h0
        rfl
    | str s =>
        have h0 : s = "" := by simpa [jsTruthy] using hf
        subst h0
        rfl
    | func r => exact absurd hf (by simp [jsTruthy])
    | arr a b c => exact absurd hf (by simp [jsTruthy])
    | obj a b c => exact absurd hf (by simp [jsTruthy])
    | inst a b c => exact absurd hf (by simp [jsTruthy])
  · cases w <;>
      first
        | rfl
        | exact absurd hprim (by simp [Value.isPrim])

/-- C6 amended witness: a null value and a concrete element array. -/
theorem c6_amended_witness :
    (jsTruthy Value.null = false ∧
      (serializeF 3 fragArrEnv (.inst 10 1 [("items", .null)])
          St.empty).1 = .obj 4 false [("items", .arr 3 false [])]) ∧
    ((serializeF 3 fragArrEnv
        (.inst 10 1
          [("items", .arr 7 false [.inst 11 0 [("name", .str "x")], .null])])
        St.empty).1 =
      .obj 8 false
        [("items", .arr 7 false [.obj 6 false [("name", .str "x")], .null])]) :=
  ⟨⟨rfl, (c6_amended .null (.str "x") rfl).1 rfl⟩,
    (c6_amended .null (.str "x") rfl).2⟩


/-! ### Claim C4 -/

/-- C4 counterexample: clone copies an array-kind scalar field by
reference, not by value — the clone holds the very same mutable array node
(allocation label 7, strict-equal to the original field), so a mutation
reachable from the clone is visible from the original. -/
theorem c4_counterexample :
    (cloneF 3 fragEnv
        (.inst 10 1 [("tags", .arr 7 false [.num 1]),
                     ("f", .inst 11 0 [("score", .num 5)])]) ⟨[], 20⟩).map
      (fun r => getProp r.1 "tags") = .ok (.arr 7 false [.num 1]) ∧
    getProp (.inst 10 1 [("tags", .arr 7 false [.num 1]),
                         ("f", .inst 11 0 [("score", .num 5)])]) "tags" =
      .arr 7 false [.num 1] ∧
    jsStrictEq (.arr 7 false [.num 1]) (.arr 7 false [.num 1]) = true :=
  ⟨rfl, rfl, rfl⟩

/-- C4 amended: clone takes scalar fields as the same value node — a
by-value copy for primitives but a shared reference for an array-kind
value — while a nested fragment is recursively cloned: the cloned fragment
is a distinct object (fresh label, not strict-equal to the original) that
is field-wise equal to it.  Likewise for a fragment-array field: the clone
holds a fresh array (not the original node) whose elements are recursively
cloned into distinct, field-wise equal objects. -/
theorem c4_amended (m : Int) (axs : List Value) (aid fid iid : Nat)
    (afr : Bool) (hfid : fid ≠ 23) :
    cloneF 3 fragEnv
        (.inst iid 1 [("tags", .arr aid afr axs),
                      ("f", .inst fid 0 [("score", .num m)])]) ⟨[], 20⟩ =
      .ok (.inst 25 1 [("tags", .arr aid afr axs),
                       ("f", .inst 23 0 [("score", .num m)])],
        ⟨[(0, ⟨21, [("score",
            ⟨.attr, .attrT "number", some "score", none, none, none, none⟩)]⟩),
          (1, ⟨20, [("tags",
            ⟨.attr, .attrT "array", some "tags", none, none, none, none⟩),
            ("f", ⟨.fragment, .classT 0, some "f", none, none, none, none⟩)]⟩)],
          26⟩) ∧
    jsStrictEq (.arr aid afr axs) (.arr aid afr axs) = true ∧
    jsStrictEq (.inst 23 0 [("score", .num m)])
      (.inst fid 0 [("score", .num m)]) = false ∧
    getProp (.inst 23 0 [("score", .num m)]) "score" =
      getProp (.inst fid 0 [("score", .num m)]) "score" ∧
    (cloneF 3 fragArrEnv
        (.inst 30 1 [("items",
          .arr 31 false [.inst 32 0 [("name", .str "x")]])])
        ⟨[], 40⟩).map (fun r => r.1) =
      .ok (.inst 46 1 [("items",
        .arr 44 false [.inst 43 0 [("name", .str "x")]])]) ∧
    jsStrictEq (.arr 44 false [.inst 43 0 [("name", .str "x")]])
      (.arr 31 false [.inst 32 0 [("name", .str "x")]]) = false ∧
    jsStrictEq (.inst 43 0 [("name", .str "x")])
      (.inst 32 0 [("name", .str "x")]) = false ∧
    getProp (.inst 43 0 [("name", .str "x")]) "name" =
      getProp (.inst 32 0 [("name", .str "x")]) "name" := by
  refine ⟨rfl, by simp [jsStrictEq], ?_, rfl, rfl, rfl, rfl, rfl⟩
  have h23 : (23 : Nat) ≠ fid := fun h => hfid h.symm
  simp [jsStrictEq, h23]

/-- C4 amended witness: a concrete instance. -/
theorem c4_amended_witness :
    cloneF 3 fragEnv
        (.inst 10 1 [("tags", .arr 7 false [.num 1]),
                     ("f", .inst 11 0 [("score", .num 5)])]) ⟨[], 20⟩ =
      .ok (.inst 25 1 [("tags", .arr 7 false [.num 1]),
                       ("f", .inst 23 0 [("score", .num 5)])],
        ⟨[(0, ⟨21, [("score",
            ⟨.attr, .attrT "number", some "score", none, none, none, none⟩)]⟩),
          (1, ⟨20, [("tags",
            ⟨.attr, .attrT "array", some "tags", none, none, none, none⟩),
            ("f", ⟨.fragment, .classT 0, some "f", none, none, none, none⟩)]⟩)],
          26⟩) ∧
    jsStrictEq (.arr 7 false [.num 1]) (.arr 7 false [.num 1]) = true ∧
    jsStrictEq (.inst 23 0 [("score", .num 5)])
      (.inst 11 0 [("score", .num 5)]) = false ∧
    getProp (.inst 23 0 [("score", .num 5)]) "score" =
      getProp (.inst 11 0 [("score", .num 5)]) "score" ∧
    (cloneF 3 fragArrEnv
        (.inst 30 1 [("items",
          .arr 31 false [.inst 32 0 [("name", .str "x")]])])
        ⟨[], 40⟩).map (fun r => r.1) =
      .ok (.inst 46 1 [("items",
        .arr 44 false [.inst 43 0 [("name", .str "x")]])]) ∧
    jsStrictEq (.arr 44 false [.inst 43 0 [("name", .str "x")]])
      (.arr 31 false [.inst 32 0 [("name", .str "x")]]) = false ∧
    jsStrictEq (.inst 43 0 [("name", .str "x")])
      (.inst 32 0 [("name", .str "x")]) = false ∧
    getProp (.inst 43 0 [("name", .str "x")]) "name" =
      getProp (.inst 32 0 [("name", .str "x")]) "name" :=
  c4_amended 5 [.num 1] 7 11 10 false (by decide)


/-! ### Claim C10 -/

/-- C10: deserializing a plain-object input freezes the caller's
top-level object itself — the post-call argument is the same node (same
allocation label, same fields) with its frozen flag set — so own
properties can no longer be added, removed or reassigned, while nested
objects inside it keep their frozen flags (unfrozen ones stay mutable).
The wire-key normalization hands rebuilt copies to the recursive
fragment deserializations, so no nested object of the argument is
frozen by them. -/
theorem c10_freeze (fuel : Nat) (env : Env) (c : Nat) (id : Nat) (fr : Bool)
    (fs : List (String × Value)) (st : St) (arg r : Value) (st2 : St)
    (h : deserializeF (fuel + 1) env c (.obj id fr fs) st = .ok (arg, r, st2)) :
    arg = .obj id true fs ∧
    (∀ k w, setProp arg k w = arg) ∧
    (∀ k, deleteProp arg k = arg) ∧
    (∀ k nid nfs, fs.lookup k = some (.obj nid false nfs) →
      getProp arg k = .obj nid false nfs ∧
      ∀ k2 w2, setProp (getProp arg k) k2 w2 =
        .obj nid false (upsertField nfs k2 w2)) := by
  have harg : arg = .obj id true fs := by
    unfold deserializeF at h
    simp only [freezeTop] at h
    split at h
    · simp only [Except.ok.injEq, Prod.mk.injEq] at h
      exact h.1.symm
    · split at h
      · simp at h
      · split at h
        · simp at h
        · simp only [Bool.false_eq_true, if_false, ite_false, Except.ok.injEq,
            Prod.mk.injEq] at h
          exact h.1.symm
  subst harg
  refine ⟨rfl, ?_, ?_, ?_⟩
  · intro k w
    simp [setProp]
  · intro k
    simp [deleteProp]
  · intro k nid nfs hk
    refine ⟨by simp [getProp, hk], ?_⟩
    intro k2 w2
    simp [getProp, hk, setProp]

/-- C10 witness: a concrete Address wire object with a nested plain
object; the top level comes back frozen (same node), writes and deletes on
it are refused, and the nested object stays unfrozen and writable. -/
theorem c10_freeze_witness :
    (Value.obj 100 true [("country", .str "AU"),
        ("extra", .obj 101 false [("z", .num 1)])] =
      .obj 100 true [("country", .str "AU"),
        ("extra", .obj 101 false [("z", .num 1)])]) ∧
    setProp (.obj 100 true [("country", .str "AU"),
        ("extra", .obj 101 false [("z", .num 1)])]) "country" (.str "X") =
      .obj 100 true [("country", .str "AU"),
        ("extra", .obj 101 false [("z", .num 1)])] ∧
    deleteProp (.obj 100 true [("country", .str "AU"),
        ("extra", .obj 101 false [("z", .num 1)])]) "country" =
      .obj 100 true [("country", .str "AU"),
        ("extra", .obj 101 false [("z", .num 1)])] ∧
    setProp (getProp (.obj 100 true [("country", .str "AU"),
        ("extra", .obj 101 false [("z", .num 1)])]) "extra") "z" (.num 2) =
      .obj 101 false (upsertField [("z", .num 1)] "z" (.num 2)) := by
  have hc := c10_freeze 2 addrEnv 0 100 false
    [("country", .str "AU"), ("extra", .obj 101 false [("z", .num 1)])]
    St.empty
    (.obj 100 true [("country", .str "AU"),
      ("extra", .obj 101 false [("z", .num 1)])])
    (.inst 4 0 [("country", .str "AU")])
    ⟨[(0, ⟨2, [("country",
      ⟨.attr, .attrT "string", some "country", none, none, none, none⟩)]⟩)], 5⟩
    rfl
  exact ⟨hc.1 ▸ rfl, hc.2.1 "country" (.str "X"), hc.2.2.1 "country",
    (hc.2.2.2 "extra" 101 [("z", .num 1)] rfl).2 "z" (.num 2)⟩


/-! ### Claim C9 -/

def isHandledKind (t : FType) : Bool :=
  t == .attrT "number" || t == .attrT "boolean" || t == .attrT "string" ||
  t == .attrT "enum" || t == .attrT "array"

theorem jsParseFloat_defined (cls : Nat → String) (fuel : Nat) (v : Value) :
    (jsParseFloat cls fuel v).isUndef = false := by
  unfold jsParseFloat
  cases v <;> first | rfl | (dsimp only; split <;> rfl)

theorem coerceByType_defined (fuel : Nat) (env : Env) (d : FieldDef)
    (val : Value) (ctr : Nat) (w : Value) (n : Nat)
    (ht : isHandledKind d.type = true) (hvu : val.isUndef = false)
    (h : coerceByType fuel env d val ctr = .ok (w, n)) :
    w.isUndef = false := by
  obtain ⟨kind, type, key, api, dv, so, et⟩ := d
  simp only [isHandledKind, Bool.or_eq_true, beq_iff_eq] at ht
  rcases ht with (((ht | ht) | ht) | ht) | ht <;> subst ht
  · replace h : (Except.ok
        ((if jsIsNaN val then Value.num 0
          else jsParseFloat (classNameOf env) fuel val), ctr) :
        Res (Value × Nat)) = .ok (w, n) := h
    simp only [Except.ok.injEq, Prod.mk.injEq] at h
    rw [← h.1]
    split
    · rfl
    · exact jsParseFloat_defined _ _ _
  · replace h : (match jsonParseAtom (jsToString (classNameOf env) fuel val) with
        | some j => (Except.ok (Value.bool (jsTruthy j), ctr) : Res (Value × Nat))
        | none => .error (.parseErr ("Unexpected token in JSON: " ++
            jsToString (classNameOf env) fuel val))) = .ok (w, n) := h
    split at h
    · simp only [Except.ok.injEq, Prod.mk.injEq] at h
      rw [← h.1]; rfl
    · simp at h
  · replace h : (Except.ok
        ((if isNone val then Value.str ""
          else Value.str (jsToString (classNameOf env) fuel val)), ctr) :
        Res (Value × Nat)) = .ok (w, n) := h
    simp only [Except.ok.injEq, Prod.mk.injEq] at h
    rw [← h.1]
    split <;> rfl
  · replace h : (match et with
        | some e =>
            if e.hasValue val then (Except.ok (val, ctr) : Res (Value × Nat))
            else .error (.validationErr ("Unknown " ++ e.name ++
              " enum value: " ++ jsToString (classNameOf env) fuel val))
        | none => .error (.typeErr "fieldDef.enumType is undefined")) =
        .ok (w, n) := h
    split at h
    · split at h
      · simp only [Except.ok.injEq, Prod.mk.injEq] at h
        rw [← h.1]; exact hvu
      · simp at h
    · simp at h
  · cases val <;>
      first
        | (replace h : (Except.ok (Value.arr ctr false [], ctr + 1) :
              Res (Value × Nat)) = .ok (w, n) := h
           simp only [Except.ok.injEq, Prod.mk.injEq] at h
           rw [← h.1]; rfl)
        | (rename_i a b c2
           replace h : (Except.ok (Value.arr a b c2, ctr) :
              Res (Value × Nat)) = .ok (w, n) := h
           simp only [Except.ok.injEq, Prod.mk.injEq] at h
           rw [← h.1]; rfl)

theorem kindDefault_defined (fuel : Nat) (env : Env) (d : FieldDef)
    (val : Value) (ctr : Nat) (w : Value) (n : Nat)
    (ht : isHandledKind d.type = true)
    (h : kindDefault fuel env d val ctr = .ok (w, n)) :
    w.isUndef = false := by
  obtain ⟨kind, type, key, api, dv, so, et⟩ := d
  simp only [isHandledKind, Bool.or_eq_true, beq_iff_eq] at ht
  rcases ht with (((ht | ht) | ht) | ht) | ht <;> subst ht <;>
    (replace h := h
     simp only [kindDefault] at h
     simp only [Except.ok.injEq, Prod.mk.injEq] at h
     rw [← h.1]
     rfl)

theorem getValueOrDefault_defined (fuel : Nat) (env : Env) (d : FieldDef)
    (val : Value) (ctr : Nat) (w : Value) (n : Nat)
    (ht : isHandledKind d.type = true)
    (hv : val ≠ .func .undef)
    (h : getValueOrDefault fuel env d val ctr = .ok (w, n)) :
    w.isUndef = false := by
  unfold getValueOrDefault at h
  cases hemp : isEmpty val with
  | true =>
      rw [hemp] at h
      simp only [if_true, ite_true] at h
      by_cases hdvU : (resolveDefault d.defaultValue).isUndef = true
      · rw [if_neg (by simp [hdvU])] at h
        exact kindDefault_defined fuel env d val ctr w n ht h
      · rw [if_pos (by simpa using hdvU)] at h
        simp only [Except.ok.injEq, Prod.mk.injEq] at h
        rw [← h.1]
        simpa using hdvU
  | false =>
      rw [hemp] at h
      simp only [Bool.false_eq_true, if_false, ite_false] at h
      cases val with
      | undef => simp [isEmpty] at hemp
      | null => simp [isEmpty] at hemp
      | func ret =>
          replace h : (Except.ok (ret, ctr) : Res (Value × Nat)) = .ok (w, n) := h
          simp only [Except.ok.injEq, Prod.mk.injEq] at h
          rw [← h.1]
          cases ret <;> simp_all [Value.isUndef]
      | bool b => exact coerceByType_defined fuel env d (.bool b) ctr w n ht rfl h
      | num m => exact coerceByType_defined fuel env d (.num m) ctr w n ht rfl h
      | nan => exact coerceByType_defined fuel env d Value.nan ctr w n ht rfl h
      | str s2 => exact coerceByType_defined fuel env d (.str s2) ctr w n ht rfl h
      | arr a b c2 =>
          exact coerceByType_defined fuel env d (.arr a b c2) ctr w n ht rfl h
      | obj a b c2 =>
          exact coerceByType_defined fuel env d (.obj a b c2) ctr w n ht rfl h
      | inst a b c2 =>
          exact coerceByType_defined fuel env d (.inst a b c2) ctr w n ht rfl h


theorem truthy_not_undef (v : Value) (h : jsTruthy v = true) :
    v.isUndef = false := by
  cases v <;> simp_all [jsTruthy, Value.isUndef]

theorem lookup_getD_ne (props : List (String × Value)) (k : String)
    (hprops : ∀ q ∈ props, q.2 ≠ .func .undef) :
    (props.lookup k).getD .undef ≠ .func .undef := by
  induction props with
  | nil => simp [List.lookup]
  | cons p rest ih =>
      simp only [List.lookup]
      cases hk : (k == p.1) with
      | true => simpa using hprops p (by simp)
      | false => exact ih (fun q hq => hprops q (by simp [hq]))

theorem createFields_defined (fuel : Nat) (env : Env)
    (props : List (String × Value))
    (hprops : ∀ q ∈ props, q.2 ≠ .func .undef) :
    ∀ (defs : List (String × FieldDef)) (st : St)
      (res : List (String × Value)) (st2 : St),
    (∀ p ∈ defs, p.2.kind = .fragmentArray ∨
      (isHandledKind p.2.type = true ∧
        p.2.defaultValue ≠ some (.func .undef))) →
    createFields fuel env defs props st = .ok (res, st2) →
    res.map Prod.fst = defs.map Prod.fst ∧
    ∀ r ∈ res, (r.2).isUndef = false := by
  intro defs
  induction defs with
  | nil =>
      intro st res st2 hdefs h
      simp only [createFields, Except.ok.injEq, Prod.mk.injEq] at h
      rw [← h.1]
      simp
  | cons p rest ih =>
      intro st res st2 hdefs h
      obtain ⟨key, d⟩ := p
      obtain ⟨kind, type, dkey, api, dv, so, et⟩ := d
      have hrest : ∀ q ∈ rest, q.2.kind = .fragmentArray ∨
          (isHandledKind q.2.type = true ∧
            q.2.defaultValue ≠ some (.func .undef)) :=
        fun q hq => hdefs q (by simp [hq])
      cases kind with
      | fragmentArray =>
          replace h : (match
              (if jsTruthy (if ((props.lookup key).getD Value.undef).isUndef
                  then (dv.getD .undef)
                  else ((props.lookup key).getD Value.undef)) then
                (Except.ok ((if ((props.lookup key).getD Value.undef).isUndef
                  then (dv.getD .undef)
                  else ((props.lookup key).getD Value.undef)), st) :
                  Res (Value × St))
              else .ok (.arr st.ctr false [], bumpCtr st)) with
            | Except.error e => (Except.error e :
                Res (List (String × Value) × St))
            | Except.ok (w, st1) =>
                match createFields fuel env rest props st1 with
                | Except.error e => Except.error e
                | Except.ok (ps, st3) => Except.ok ((key, w) :: ps, st3)) =
            .ok (res, st2) := h
          by_cases htr : jsTruthy (if ((props.lookup key).getD
              Value.undef).isUndef then (dv.getD .undef)
              else ((props.lookup key).getD Value.undef)) = true
          case pos =>
              simp only [htr, if_true, ite_true] at h
              cases hc : createFields fuel env rest props st with
              | error e => rw [hc] at h; simp at h
              | ok pst =>
                  obtain ⟨ps, st3⟩ := pst
                  rw [hc] at h
                  simp only [Except.ok.injEq, Prod.mk.injEq] at h
                  obtain ⟨hres, -⟩ := h
                  rw [← hres]
                  obtain ⟨ihm, ihd⟩ := ih st ps st3 hrest hc
                  refine ⟨by simp [ihm], ?_⟩
                  intro r hr
                  rcases List.mem_cons.mp hr with hr1 | hr2
                  · rw [hr1]
                    exact truthy_not_undef _ htr
                  · exact ihd r hr2
          case neg =>
              rw [Bool.not_eq_true] at htr
              simp only [htr, Bool.false_eq_true, if_false, ite_false] at h
              cases hc : createFields fuel env rest props (bumpCtr st) with
              | error e => rw [hc] at h; simp at h
              | ok pst =>
                  obtain ⟨ps, st3⟩ := pst
                  rw [hc] at h
                  simp only [Except.ok.injEq, Prod.mk.injEq] at h
                  obtain ⟨hres, -⟩ := h
                  rw [← hres]
                  obtain ⟨ihm, ihd⟩ := ih (bumpCtr st) ps st3 hrest hc
                  refine ⟨by simp [ihm], ?_⟩
                  intro r hr
                  rcases List.mem_cons.mp hr with hr1 | hr2
                  · rw [hr1]
                    rfl
                  · exact ihd r hr2
      | attr =>
          rcases hdefs (key, ⟨.attr, type, dkey, api, dv, so, et⟩) (by simp)
            with hk | ⟨hht, hdvne⟩
          · simp at hk
          · have hval_ne : (if ((props.lookup key).getD Value.undef).isUndef
                then (dv.getD .undef)
                else ((props.lookup key).getD Value.undef)) ≠
                .func .undef := by
              split
              · cases dv with
                | none => simp
                | some x =>
                    simp only [Option.getD]
                    intro hx
                    exact hdvne (by rw [hx])
              · exact lookup_getD_ne props key hprops
            replace h : (match
                (match getValueOrDefault fuel env
                    ⟨.attr, type, dkey, api, dv, so, et⟩
                    (if ((props.lookup key).getD Value.undef).isUndef
                      then (dv.getD .undef)
                      else ((props.lookup key).getD Value.undef)) st.ctr with
                  | Except.error e => (Except.error e : Res (Value × St))
                  | Except.ok (w, n) => Except.ok (w, setCtr st n)) with
              | Except.error e => (Except.error e :
                  Res (List (String × Value) × St))
              | Except.ok (w, st1) =>
                  match createFields fuel env rest props st1 with
                  | Except.error e => Except.error e
                  | Except.ok (ps, st3) => Except.ok ((key, w) :: ps, st3)) =
              .ok (res, st2) := h
            cases hg : getValueOrDefault fuel env
                ⟨.attr, type, dkey, api, dv, so, et⟩
                (if ((props.lookup key).getD Value.undef).isUndef
                  then (dv.getD .undef)
                  else ((props.lookup key).getD Value.undef)) st.ctr with
            | error e => rw [hg] at h; simp at h
            | ok wn =>
                obtain ⟨w2, n2⟩ := wn
                rw [hg] at h
                dsimp only at h
                cases hc : createFields fuel env rest props (setCtr st n2) with
                | error e => rw [hc] at h; simp at h
                | ok pst =>
                    obtain ⟨ps, st3⟩ := pst
                    rw [hc] at h
                    simp only [Except.ok.injEq, Prod.mk.injEq] at h
                    obtain ⟨hres, -⟩ := h
                    rw [← hres]
                    obtain ⟨ihm, ihd⟩ := ih (setCtr st n2) ps st3 hrest hc
                    refine ⟨by simp [ihm], ?_⟩
                    intro r hr
                    rcases List.mem_cons.mp hr with hr1 | hr2
                    · rw [hr1]
                      exact getValueOrDefault_defined fuel env _ _ _ _ _
                        hht hval_ne hg
                    · exact ihd r hr2
      | fragment =>
          rcases hdefs (key, ⟨.fragment, type, dkey, api, dv, so, et⟩) (by simp)
            with hk | ⟨hht, hdvne⟩
          · simp at hk
          · have hval_ne : (if ((props.lookup key).getD Value.undef).isUndef
                then (dv.getD .undef)
                else ((props.lookup key).getD Value.undef)) ≠
                .func .undef := by
              split
              · cases dv with
                | none => simp
                | some x =>
                    simp only [Option.getD]
                    intro hx
                    exact hdvne (by rw [hx])
              · exact lookup_getD_ne props key hprops
            replace h : (match
                (match getValueOrDefault fuel env
                    ⟨.fragment, type, dkey, api, dv, so, et⟩
                    (if ((props.lookup key).getD Value.undef).isUndef
                      then (dv.getD .undef)
                      else ((props.lookup key).getD Value.undef)) st.ctr with
                  | Except.error e => (Except.error e : Res (Value × St))
                  | Except.ok (w, n) => Except.ok (w, setCtr st n)) with
              | Except.error e => (Except.error e :
                  Res (List (String × Value) × St))
              | Except.ok (w, st1) =>
                  match createFields fuel env rest props st1 with
                  | Except.error e => Except.error e
                  | Except.ok (ps, st3) => Except.ok ((key, w) :: ps, st3)) =
              .ok (res, st2) := h
            cases hg : getValueOrDefault fuel env
                ⟨.fragment, type, dkey, api, dv, so, et⟩
                (if ((props.lookup key).getD Value.undef).isUndef
                  then (dv.getD .undef)
                  else ((props.lookup key).getD Value.undef)) st.ctr with
            | error e => rw [hg] at h; simp at h
            | ok wn =>
                obtain ⟨w2, n2⟩ := wn
                rw [hg] at h
                dsimp only at h
                cases hc : createFields fuel env rest props (setCtr st n2) with
                | error e => rw [hc] at h; simp at h
                | ok pst =>
                    obtain ⟨ps, st3⟩ := pst
                    rw [hc] at h
                    simp only [Except.ok.injEq, Prod.mk.injEq] at h
                    obtain ⟨hres, -⟩ := h
                    rw [← hres]
                    obtain ⟨ihm, ihd⟩ := ih (setCtr st n2) ps st3 hrest hc
                    refine ⟨by simp [ihm], ?_⟩
                    intro r hr
                    rcases List.mem_cons.mp hr with hr1 | hr2
                    · rw [hr1]
                      exact getValueOrDefault_defined fuel env _ _ _ _ _
                        hht hval_ne hg
                    · exact ihd r hr2


theorem annotate_keys (defs : List (String × FieldDef)) :
    (annotate defs).map Prod.fst = defs.map Prod.fst := by
  simp [annotate]

theorem lookup_append_left {α : Type} (l1 l2 : List (String × α)) (k : String)
    (w : α) (h : l1.lookup k = some w) : (l1 ++ l2).lookup k = some w := by
  induction l1 with
  | nil => simp [List.lookup] at h
  | cons q rest ih =>
      simp only [List.cons_append, List.lookup] at h ⊢
      cases hk : (k == q.1) with
      | true => rw [hk] at h; simpa using h
      | false => rw [hk] at h; exact ih h

theorem lookup_mem_of_key {α : Type} (l : List (String × α)) (k : String)
    (hk : k ∈ l.map Prod.fst) :
    ∃ w, l.lookup k = some w ∧ ∃ p ∈ l, p.2 = w := by
  induction l with
  | nil => simp at hk
  | cons q rest ih =>
      cases hbeq : (k == q.1) with
      | true =>
          refine ⟨q.2, ?_, q, by simp, rfl⟩
          simp [List.lookup, hbeq]
      | false =>
          have hk2 : k ∈ rest.map Prod.fst := by
            rw [List.map_cons] at hk
            rcases List.mem_cons.mp hk with h1 | h1
            · exact absurd (beq_iff_eq.mpr h1) (by simp [hbeq])
            · exact h1
          obtain ⟨w, hw, p, hp, hpw⟩ := ih hk2
          refine ⟨w, ?_, p, by simp [hp], hpw⟩
          simp [List.lookup, hbeq, hw]

/-- C9 counterexample: a record type C with a single fragment field f;
`create` with no initial values leaves f undefined — the empty-value
resolution falls through both switches of `getValueOrDefault` for a
fragment-typed descriptor and returns the undefined value itself. -/
theorem c9_counterexample :
    (createF 1 fragOnlyEnv 1 (.obj 100 false []) St.empty).map
      (fun r => getProp r.1 "f") = .ok .undef ∧
    Value.undef.isUndef = true :=
  ⟨rfl, rfl⟩

theorem jsStrictEq_nan_right (w : Value) : jsStrictEq w .nan = false := by
  cases w <;> rfl

theorem hasValue_nan (e : EnumDef) : e.hasValue .nan = false := by
  unfold EnumDef.hasValue
  simp [jsStrictEq_nan_right]

theorem stable_not_nan (env : Env) (d : FieldDef) (ctr : Nat)
    (ht : isHandledKind d.type = true)
    (h : getValueOrDefault 2 env d .nan ctr = .ok (.nan, ctr)) : False := by
  obtain ⟨kind, type, key, api, dv, so, et⟩ := d
  simp only [isHandledKind, Bool.or_eq_true, beq_iff_eq] at ht
  rcases ht with (((ht | ht) | ht) | ht) | ht <;> subst ht
  · replace h : (Except.ok (Value.num 0, ctr) : Res (Value × Nat)) =
        .ok (.nan, ctr) := h
    simp at h
  · replace h : (Except.error (JsErr.parseErr
        ("Unexpected token in JSON: " ++ "NaN")) : Res (Value × Nat)) =
        .ok (.nan, ctr) := h
    simp at h
  · replace h : (Except.ok (Value.str "NaN", ctr) : Res (Value × Nat)) =
        .ok (.nan, ctr) := h
    simp at h
  · replace h : (match et with
        | some e =>
            if e.hasValue .nan then (Except.ok (Value.nan, ctr) : Res (Value × Nat))
            else .error (.validationErr ("Unknown " ++ e.name ++
              " enum value: " ++ "NaN"))
        | none => .error (.typeErr "fieldDef.enumType is undefined")) =
        .ok (.nan, ctr) := h
    cases et with
    | none => simp at h
    | some e =>
        dsimp only at h
        rw [hasValue_nan e] at h
        simp at h
  · replace h : (Except.ok (Value.arr ctr false [], ctr + 1) :
        Res (Value × Nat)) = .ok (.nan, ctr) := h
    simp at h

theorem stable_not_undef (env : Env) (d : FieldDef) (ctr : Nat)
    (ht : isHandledKind d.type = true)
    (h : getValueOrDefault 2 env d .undef ctr = .ok (.undef, ctr)) : False := by
  unfold getValueOrDefault at h
  replace h : (if ¬ (resolveDefault d.defaultValue).isUndef then
      (Except.ok (resolveDefault d.defaultValue, ctr) : Res (Value × Nat))
      else kindDefault 2 env d .undef ctr) = .ok (.undef, ctr) := h
  by_cases hdvU : (resolveDefault d.defaultValue).isUndef = true
  · rw [if_neg (by simp [hdvU])] at h
    obtain ⟨kind, type, key, api, dv, so, et⟩ := d
    simp only [isHandledKind, Bool.or_eq_true, beq_iff_eq] at ht
    rcases ht with (((ht | ht) | ht) | ht) | ht <;> subst ht <;>
      (replace h := h
       simp only [kindDefault] at h
       simp at h)
  · rw [if_pos (by simpa using hdvU)] at h
    simp only [Except.ok.injEq, Prod.mk.injEq] at h
    rw [h.1] at hdvU
    simp [Value.isUndef] at hdvU

theorem stable_prim_refl (env : Env) (d : FieldDef) (v : Value)
    (ht : isHandledKind d.type = true) (hp : v.isPrim = true)
    (h : getValueOrDefault 2 env d v 0 = .ok (v, 0)) :
    jsStrictEq v v = true := by
  cases v with
  | undef => exact absurd h (fun h2 => stable_not_undef env d 0 ht h2)
  | nan => exact absurd h (fun h2 => stable_not_nan env d 0 ht h2)
  | null => rfl
  | bool b => simp [jsStrictEq]
  | num n => simp [jsStrictEq]
  | str s => simp [jsStrictEq]
  | func r => simp [Value.isPrim] at hp
  | arr a b c => simp [Value.isPrim] at hp
  | obj a b c => simp [Value.isPrim] at hp
  | inst a b c => simp [Value.isPrim] at hp


theorem annotate_apiKeys (defs : List (String × FieldDef)) :
    (annotate defs).map (fun p => p.2.apiKey.getD p.1) =
      defs.map (fun p => p.2.apiKey.getD p.1) := by
  simp [annotate]

theorem setCtr_self (st : St) : setCtr st st.ctr = st := rfl

theorem serializeFields_attr (ser : Value → St → Value × St) (this : Value) :
    ∀ (defs : List (String × FieldDef)) (st : St),
    (∀ p ∈ defs, p.2.kind = .attr ∧ p.2.serializeOpt ≠ some false) →
    serializeFieldsGen ser this defs st =
      (defs.map (fun p => (p.2.apiKey.getD p.1, getProp this p.1)), st) := by
  intro defs
  induction defs with
  | nil => intro st _; rfl
  | cons p rest ih =>
      intro st hd
      obtain ⟨key, d⟩ := p
      obtain ⟨hk, hso⟩ := hd (key, d) (by simp)
      obtain ⟨kind, type, dkey, api, dv, so, et⟩ := d
      simp only at hk
      subst hk
      have hso2 : (so == some false) = false := by
        cases so with
        | none => rfl
        | some b =>
            cases b with
            | false => exact absurd rfl hso
            | true => rfl
      simp only [serializeFieldsGen, hso2, Bool.false_eq_true, if_false,
        ite_false]
      rw [ih st (fun q hq => hd q (by simp [hq]))]
      rfl

theorem deserializeFields_attr
    (dsr : Nat → Value → St → Res (Value × Value × St))
    (cfuel : Nat) (env : Env) :
    ∀ (defs : List (String × FieldDef)) (v : Value) (st : St),
    (∀ p ∈ defs, p.2.kind = .attr) →
    (∀ p ∈ defs, ∀ ctr,
      getValueOrDefault cfuel env p.2 (getProp v (p.2.apiKey.getD p.1)) ctr =
        .ok (getProp v (p.2.apiKey.getD p.1), ctr)) →
    deserializeFieldsGen dsr cfuel env defs v st =
      .ok (defs.map (fun p => (p.1, getProp v (p.2.apiKey.getD p.1))), st) := by
  intro defs
  induction defs with
  | nil => intro v st _ _; rfl
  | cons p rest ih =>
      intro v st hd hstab
      obtain ⟨key, d⟩ := p
      have hk := hd (key, d) (by simp)
      have hs := hstab (key, d) (by simp)
      obtain ⟨kind, type, dkey, api, dv, so, et⟩ := d
      simp only at hk
      subst hk
      simp only [deserializeFieldsGen]
      rw [hs st.ctr]
      dsimp only
      rw [setCtr_self]
      rw [ih v st (fun q hq => hd q (by simp [hq]))
        (fun q hq => hstab q (by simp [hq]))]
      rfl

theorem createFields_stable (cfuel : Nat) (env : Env) (i : Value)
    (props : List (String × Value)) :
    ∀ (defs : List (String × FieldDef)) (st : St),
    (∀ p ∈ defs, p.2.kind = .attr) →
    (∀ p ∈ defs, props.lookup p.1 = some (getProp i p.1)) →
    (∀ p ∈ defs, (getProp i p.1).isUndef = false) →
    (∀ p ∈ defs, ∀ ctr,
      getValueOrDefault cfuel env p.2 (getProp i p.1) ctr =
        .ok (getProp i p.1, ctr)) →
    createFields cfuel env defs props st =
      .ok (defs.map (fun p => (p.1, getProp i p.1)), st) := by
  intro defs
  induction defs with
  | nil => intro st _ _ _ _; rfl
  | cons p rest ih =>
      intro st hd hlook hdefined hstab
      obtain ⟨key, d⟩ := p
      have hk := hd (key, d) (by simp)
      have hl := hlook (key, d) (by simp)
      have hdef := hdefined (key, d) (by simp)
      have hs := hstab (key, d) (by simp)
      obtain ⟨kind, type, dkey, api, dv, so, et⟩ := d
      simp only at hk
      subst hk
      simp only [createFields]
      rw [hl]
      simp only [Option.getD]
      simp only at hdef
      rw [hdef]
      simp only [Bool.false_eq_true, if_false, ite_false]
      rw [hs st.ctr]
      dsimp only
      rw [setCtr_self]
      rw [ih st (fun q hq => hd q (by simp [hq]))
        (fun q hq => hlook q (by simp [hq]))
        (fun q hq => hdefined q (by simp [hq]))
        (fun q hq => hstab q (by simp [hq]))]
      rfl


theorem value_undef_of_isUndef (v : Value) (h : v.isUndef = true) :
    v = .undef := by
  cases v <;> simp_all [Value.isUndef]

/-- C8 amended: for a record type all of whose fields are scalar
(attribute) kinds of handled types with includeOnWrite true, with
duplicate-free keys and wire keys, and an instance whose field values are
primitives fixed by coercion, deserialize of serialize succeeds and the
result is field-wise identical to the original (same values, and
strict-equal in the sense the intended isEqual comparison would use). -/
theorem c8_amended (env : Env) (c : Nat) (nm : String)
    (defs : List (String × FieldDef)) (iid : Nat)
    (ifs : List (String × Value)) (st : St)
    (hcls : getClass env c = some ⟨nm, none, defs⟩)
    (hcache : st.cache = [])
    (hattr : ∀ p ∈ defs, p.2.kind = .attr ∧ p.2.serializeOpt ≠ some false ∧
      isHandledKind p.2.type = true)
    (hkeys : (defs.map Prod.fst).Nodup)
    (hapi : (defs.map (fun p => p.2.apiKey.getD p.1)).Nodup)
    (hstab : ∀ p ∈ defs,
      (getProp (.inst iid c ifs) p.1).isPrim = true ∧
      ∀ ctr, getValueOrDefault 2 env p.2 (getProp (.inst iid c ifs) p.1) ctr =
        .ok (getProp (.inst iid c ifs) p.1, ctr)) :
    ∃ arg j st2,
      deserializeF 2 env c (serializeF 2 env (.inst iid c ifs) st).1
          (serializeF 2 env (.inst iid c ifs) st).2 = .ok (arg, j, st2) ∧
      ∀ p ∈ defs, getProp j p.1 = getProp (.inst iid c ifs) p.1 ∧
        jsStrictEq (getProp j p.1) (getProp (.inst iid c ifs) p.1) = true := by
  obtain ⟨cache0, n0⟩ := st
  simp only at hcache
  subst hcache
  have hproto := protoFields_root env c _ hcls rfl
  -- transferred hypotheses over the annotated schema
  have hattrA : ∀ p ∈ annotate defs, p.2.kind = .attr ∧
      p.2.serializeOpt ≠ some false ∧ isHandledKind p.2.type = true := by
    intro p hp
    simp only [annotate, List.mem_map] at hp
    obtain ⟨q, hq, rfl⟩ := hp
    obtain ⟨h1, h2, h3⟩ := hattr q hq
    exact ⟨by simpa using h1, by simpa using h2, by simpa using h3⟩
  have hstabA : ∀ p ∈ annotate defs,
      (getProp (.inst iid c ifs) p.1).isPrim = true ∧
      ∀ ctr, getValueOrDefault 2 env p.2 (getProp (.inst iid c ifs) p.1) ctr =
        .ok (getProp (.inst iid c ifs) p.1, ctr) := by
    intro p hp
    simp only [annotate, List.mem_map] at hp
    obtain ⟨q, hq, rfl⟩ := hp
    obtain ⟨h1, h2⟩ := hstab q hq
    refine ⟨by simpa using h1, ?_⟩
    intro ctr
    have := getValueOrDefault_key 2 env q.2 (some q.1)
      (getProp (.inst iid c ifs) q.1) ctr
    simpa [this] using h2 ctr
  have hdefA : ∀ p ∈ annotate defs,
      (getProp (.inst iid c ifs) p.1).isUndef = false := by
    intro p hp
    by_cases hu : (getProp (.inst iid c ifs) p.1).isUndef = true
    · exfalso
      have hv := value_undef_of_isUndef _ hu
      have h2 := (hstabA p hp).2 0
      rw [hv] at h2
      exact stable_not_undef env p.2 0 (hattrA p hp).2.2 h2
    · simpa using hu
  -- the serialized wire object
  have hprimw : ∀ q ∈ (annotate defs).map
      (fun p => (p.2.apiKey.getD p.1, getProp (Value.inst iid c ifs) p.1)),
      (q.2).isPrim = true := by
    intro q hq
    simp only [List.mem_map] at hq
    obtain ⟨p, hp, rfl⟩ := hq
    exact (hstabA p hp).1
  have hprimp : ∀ q ∈ (annotate defs).map
      (fun p => (p.1, getProp (Value.inst iid c ifs) p.1)),
      (q.2).isPrim = true := by
    intro q hq
    simp only [List.mem_map] at hq
    obtain ⟨p, hp, rfl⟩ := hq
    exact (hstabA p hp).1
  have hser : serializeF 2 env (.inst iid c ifs) ⟨[], n0⟩ =
      (.obj (n0 + 2) false ((annotate defs).map
          (fun p => (p.2.apiKey.getD p.1, getProp (Value.inst iid c ifs) p.1))),
        ⟨[(c, ⟨n0, annotate defs⟩)], n0 + 3⟩) := by
    show serializeF (1 + 1) env (.inst iid c ifs) ⟨[], n0⟩ = _
    unfold serializeF
    dsimp only
    rw [getFieldDefs_empty env c ⟨[], n0⟩ rfl]
    dsimp only
    rw [hproto]
    rw [serializeFields_attr _ _ (annotate defs) _
      (fun q hq => ⟨(hattrA q hq).1, (hattrA q hq).2.1⟩)]
    dsimp only [classifyObject, bumpCtr, setCtr]
    rw [rebuildTree_obj_prim 1 (n0 + 1) false _ (n0 + 2) hprimw]
  rw [hser]
  dsimp only
  have hnd2 : ((annotate defs).map Prod.fst).Nodup := by
    rw [annotate_keys]; exact hkeys
  have hndA : ((annotate defs).map (fun r => r.2.apiKey.getD r.1)).Nodup := by
    rw [annotate_apiKeys]; exact hapi
  have hcamGet : ∀ p ∈ annotate defs,
      getProp (.obj (n0 + 3) false ((annotate defs).map
          (fun r => (r.2.apiKey.getD r.1, getProp (Value.inst iid c ifs) r.1))))
        (p.2.apiKey.getD p.1) = getProp (Value.inst iid c ifs) p.1 := by
    intro p hp
    have hl := lookup_map_of_nodup (fun r => r.2.apiKey.getD r.1)
      (fun r => getProp (Value.inst iid c ifs) r.1) (annotate defs) hndA p hp
    simp only at hl
    show (((annotate defs).map
        (fun r => (r.2.apiKey.getD r.1,
          getProp (Value.inst iid c ifs) r.1))).lookup
        (p.2.apiKey.getD p.1)).getD .undef = _
    rw [hl]
    rfl
  have hstabCam : ∀ p ∈ annotate defs, ∀ ctr,
      getValueOrDefault 2 env p.2
        (getProp (.obj (n0 + 3) false ((annotate defs).map
          (fun r => (r.2.apiKey.getD r.1, getProp (Value.inst iid c ifs) r.1))))
          (p.2.apiKey.getD p.1)) ctr =
      .ok (getProp (.obj (n0 + 3) false ((annotate defs).map
          (fun r => (r.2.apiKey.getD r.1, getProp (Value.inst iid c ifs) r.1))))
          (p.2.apiKey.getD p.1), ctr) := by
    intro p hp ctr
    rw [hcamGet p hp]
    exact (hstabA p hp).2 ctr
  have hdesF := deserializeFields_attr
    (fun c2 v2 s2 => deserializeF 1 env c2 v2 s2) 2 env (annotate defs)
    (.obj (n0 + 3) false ((annotate defs).map
      (fun r => (r.2.apiKey.getD r.1, getProp (Value.inst iid c ifs) r.1))))
    ⟨[(c, ⟨n0, annotate defs⟩)], n0 + 4⟩
    (fun q hq => (hattrA q hq).1) hstabCam
  have hmapeq : (annotate defs).map (fun p => (p.1,
      getProp (.obj (n0 + 3) false ((annotate defs).map
        (fun r => (r.2.apiKey.getD r.1, getProp (Value.inst iid c ifs) r.1))))
        (p.2.apiKey.getD p.1))) =
      (annotate defs).map (fun p => (p.1, getProp (Value.inst iid c ifs) p.1)) := by
    apply List.map_congr_left
    intro a ha
    rw [hcamGet a ha]
  have hlookp : ∀ p ∈ annotate defs,
      ((annotate defs).map
        (fun r => (r.1, getProp (Value.inst iid c ifs) r.1))).lookup p.1 =
        some (getProp (Value.inst iid c ifs) p.1) := by
    intro p hp
    exact lookup_map_of_nodup Prod.fst
      (fun r => getProp (Value.inst iid c ifs) r.1) (annotate defs) hnd2 p hp
  have hcreate := createFields_stable 2 env (.inst iid c ifs)
    ((annotate defs).map (fun r => (r.1, getProp (Value.inst iid c ifs) r.1)))
    (annotate defs) ⟨[(c, ⟨n0, annotate defs⟩)], n0 + 5⟩
    (fun q hq => (hattrA q hq).1) hlookp hdefA
    (fun q hq => (hstabA q hq).2)
  have hextras : ((annotate defs).map
      (fun r => (r.1, getProp (Value.inst iid c ifs) r.1))).filter
      (fun p => ¬ (annotate defs).any (fun q => q.1 == p.1)) = [] := by
    rw [List.filter_eq_nil_iff]
    intro a ha
    simp only [List.mem_map] at ha
    obtain ⟨p, hp, rfl⟩ := ha
    have hany : (annotate defs).any (fun q => q.1 == p.1) = true :=
      List.any_eq_true.mpr ⟨p, hp, by simp⟩
    simp [hany]
  refine ⟨.obj (n0 + 2) true ((annotate defs).map
      (fun r => (r.2.apiKey.getD r.1, getProp (Value.inst iid c ifs) r.1))),
    .inst (n0 + 5) c ((annotate defs).map
      (fun r => (r.1, getProp (Value.inst iid c ifs) r.1))),
    ⟨[(c, ⟨n0, annotate defs⟩)], n0 + 6⟩, ?_, ?_⟩
  · show deserializeF (1 + 1) env c _ _ = _
    unfold deserializeF
    dsimp only [freezeTop, camelizeObject]
    rw [rebuildTree_obj_prim 1 (n0 + 2) true _ (n0 + 3) hprimw]
    dsimp only [setCtr, Value.isNullish]
    rw [getFieldDefs_cons_self env c ⟨n0, annotate defs⟩ [] (n0 + 4)]
    dsimp only
    rw [hdesF]
    dsimp only
    rw [hmapeq]
    dsimp only [bumpCtr, setCtr]
    unfold createF
    rw [getFieldDefs_cons_self env c ⟨n0, annotate defs⟩ [] (n0 + 5)]
    dsimp only
    rw [hcreate]
    dsimp only
    rw [hextras, List.append_nil]
    rfl
  · intro p hp
    have hpA : (p.1, { p.2 with key := some p.1 }) ∈ annotate defs :=
      List.mem_map_of_mem _ hp
    have hl0 := hlookp _ hpA
    have hl : ((annotate defs).map
        (fun r => (r.1, getProp (Value.inst iid c ifs) r.1))).lookup p.1 =
        some (getProp (Value.inst iid c ifs) p.1) := hl0
    have hj : getProp (.inst (n0 + 5) c ((annotate defs).map
        (fun r => (r.1, getProp (Value.inst iid c ifs) r.1)))) p.1 =
        getProp (Value.inst iid c ifs) p.1 := by
      show (((annotate defs).map
          (fun r => (r.1, getProp (Value.inst iid c ifs) r.1))).lookup
          p.1).getD .undef = _
      rw [hl]
      rfl
    refine ⟨hj, ?_⟩
    rw [hj]
    exact stable_prim_refl env p.2 _ (hattr p hp).2.2 (hstab p hp).1
      ((hstab p hp).2 0)


/-- C8 counterexample: the claim judges the round trip "by isEqual", but
isEqual always throws a TypeError (static/instance slip, see C2), so even
for a concrete all-scalar type the round-tripped instance cannot be judged
field-wise equal by isEqual: the comparison errors instead of returning a
boolean. -/
theorem c8_counterexample :
    ∃ arg j st2,
      deserializeF 2 scalarEnv 0
        (serializeF 2 scalarEnv
          (.inst 100 0 [("s", .str "hi"), ("n", .num 5), ("b", .bool true)])
          St.empty).1
        (serializeF 2 scalarEnv
          (.inst 100 0 [("s", .str "hi"), ("n", .num 5), ("b", .bool true)])
          St.empty).2 = .ok (arg, j, st2) ∧
      isEqualF 2 scalarEnv j
        (.inst 100 0 [("s", .str "hi"), ("n", .num 5), ("b", .bool true)]) =
        .error (.typeErr "this.getFieldNames is not a function") :=
  ⟨_, _, _, rfl, rfl⟩

/-- C8 amended witness: a concrete all-scalar record type T(s,n,b) and a
concrete instance, with every hypothesis of the amended round-trip theorem
discharged by computation. -/
theorem c8_amended_witness :
    ∃ arg j st2,
      deserializeF 2 scalarEnv 0
        (serializeF 2 scalarEnv
          (.inst 100 0 [("s", .str "hi"), ("n", .num 5), ("b", .bool true)])
          St.empty).1
        (serializeF 2 scalarEnv
          (.inst 100 0 [("s", .str "hi"), ("n", .num 5), ("b", .bool true)])
          St.empty).2 = .ok (arg, j, st2) ∧
      ∀ p ∈ [("s", attrDef "string"), ("n", attrDef "number"),
          ("b", attrDef "boolean")],
        getProp j p.1 =
          getProp (.inst 100 0
            [("s", .str "hi"), ("n", .num 5), ("b", .bool true)]) p.1 ∧
        jsStrictEq (getProp j p.1)
          (getProp (.inst 100 0
            [("s", .str "hi"), ("n", .num 5), ("b", .bool true)]) p.1) =
          true :=
  c8_amended scalarEnv 0 "T"
    [("s", attrDef "string"), ("n", attrDef "number"), ("b", attrDef "boolean")]
    100 [("s", .str "hi"), ("n", .num 5), ("b", .bool true)] St.empty
    rfl rfl (by decide) (by decide) (by decide)
    (by intro p hp; fin_cases hp <;> exact ⟨rfl, fun ctr => rfl⟩)


/-! ### Further lemmas for the construction invariant (C9) -/

theorem jsParseFloat_nonfunc (cls : Nat → String) (fuel : Nat) (v : Value) :
    (jsParseFloat cls fuel v).isFunc = false := by
  unfold jsParseFloat
  cases v <;> first | rfl | (dsimp only; split <;> rfl)

theorem coerceByType_out (fuel : Nat) (env : Env) (d : FieldDef) (val : Value)
    (ctr : Nat) (w : Value) (n : Nat)
    (h : coerceByType fuel env d val ctr = .ok (w, n)) :
    w.isUndef = false ∨ w = val := by
  unfold coerceByType at h
  split at h
  · simp only [Except.ok.injEq, Prod.mk.injEq] at h
    rw [← h.1]; left; split <;> rfl
  · simp only [Except.ok.injEq, Prod.mk.injEq] at h
    rw [← h.1]; left; split
    · rfl
    · exact jsParseFloat_defined _ _ _
  · split at h
    · simp only [Except.ok.injEq, Prod.mk.injEq] at h
      rw [← h.1]; left; rfl
    · simp at h
  · split at h
    · simp only [Except.ok.injEq, Prod.mk.injEq] at h
      right; exact h.1.symm
    · simp only [Except.ok.injEq, Prod.mk.injEq] at h
      rw [← h.1]; left; rfl
  · split at h
    · split at h
      · simp only [Except.ok.injEq, Prod.mk.injEq] at h
        right; exact h.1.symm
      · simp at h
    · simp at h
  · simp only [Except.ok.injEq, Prod.mk.injEq] at h
    right; exact h.1.symm

theorem kindDefault_out (fuel : Nat) (env : Env) (d : FieldDef) (val : Value)
    (ctr : Nat) (w : Value) (n : Nat)
    (h : kindDefault fuel env d val ctr = .ok (w, n)) :
    w.isUndef = false ∨ w = val := by
  unfold kindDefault at h
  split at h <;>
    first
      | (simp only [Except.ok.injEq, Prod.mk.injEq] at h
         rw [← h.1]; left; rfl)
      | exact coerceByType_out fuel env d val ctr w n h

theorem getValueOrDefault_out (fuel : Nat) (env : Env) (d : FieldDef)
    (val : Value) (ctr : Nat) (w : Value) (n : Nat)
    (hvu : val.isUndef = false) (hvf : val.isFunc = false)
    (h : getValueOrDefault fuel env d val ctr = .ok (w, n)) :
    w.isUndef = false := by
  unfold getValueOrDefault at h
  cases hemp : isEmpty val with
  | true =>
      rw [hemp] at h
      simp only [if_true, ite_true] at h
      by_cases hdvU : (resolveDefault d.defaultValue).isUndef = true
      · rw [if_neg (by simp [hdvU])] at h
        rcases kindDefault_out fuel env d val ctr w n h with h1 | h1
        · exact h1
        · rw [h1]; exact hvu
      · rw [if_pos (by simpa using hdvU)] at h
        simp only [Except.ok.injEq, Prod.mk.injEq] at h
        rw [← h.1]
        simpa using hdvU
  | false =>
      rw [hemp] at h
      simp only [Bool.false_eq_true, if_false, ite_false] at h
      cases val with
      | undef => simp [isEmpty] at hemp
      | null => simp [isEmpty] at hemp
      | func ret => simp [Value.isFunc] at hvf
      | _ =>
          rcases coerceByType_out fuel env d _ ctr w n h with h1 | h1
          · exact h1
          · rw [h1]; exact hvu

theorem kindDefault_handled_out (fuel : Nat) (env : Env) (d : FieldDef)
    (val : Value) (ctr : Nat) (w : Value) (n : Nat)
    (ht : isHandledKind d.type = true)
    (h : kindDefault fuel env d val ctr = .ok (w, n)) :
    w.isUndef = false ∧ w.isFunc = false := by
  obtain ⟨kind, type, key, api, dv, so, et⟩ := d
  simp only [isHandledKind, Bool.or_eq_true, beq_iff_eq] at ht
  rcases ht with (((ht | ht) | ht) | ht) | ht <;> subst ht <;>
    (replace h := h
     simp only [kindDefault] at h
     simp only [Except.ok.injEq, Prod.mk.injEq] at h
     rw [← h.1]
     exact ⟨rfl, rfl⟩)

theorem coerceByType_handled_out (fuel : Nat) (env : Env) (d : FieldDef)
    (val : Value) (ctr : Nat) (w : Value) (n : Nat)
    (ht : isHandledKind d.type = true) (hvu : val.isUndef = false)
    (hvf : val.isFunc = false)
    (h : coerceByType fuel env d val ctr = .ok (w, n)) :
    w.isUndef = false ∧ w.isFunc = false := by
  obtain ⟨kind, type, key, api, dv, so, et⟩ := d
  simp only [isHandledKind, Bool.or_eq_true, beq_iff_eq] at ht
  rcases ht with (((ht | ht) | ht) | ht) | ht <;> subst ht
  · replace h : (Except.ok
        ((if jsIsNaN val then Value.num 0
          else jsParseFloat (classNameOf env) fuel val), ctr) :
        Res (Value × Nat)) = .ok (w, n) := h
    simp only [Except.ok.injEq, Prod.mk.injEq] at h
    rw [← h.1]
    split
    · exact ⟨rfl, rfl⟩
    · exact ⟨jsParseFloat_defined _ _ _, jsParseFloat_nonfunc _ _ _⟩
  · replace h : (match jsonParseAtom (jsToString (classNameOf env) fuel val) with
        | some j => (Except.ok (Value.bool (jsTruthy j), ctr) : Res (Value × Nat))
        | none => .error (.parseErr ("Unexpected token in JSON: " ++
            jsToString (classNameOf env) fuel val))) = .ok (w, n) := h
    split at h
    · simp only [Except.ok.injEq, Prod.mk.injEq] at h
      rw [← h.1]; exact ⟨rfl, rfl⟩
    · simp at h
  · replace h : (Except.ok
        ((if isNone val then Value.str ""
          else Value.str (jsToString (classNameOf env) fuel val)), ctr) :
        Res (Value × Nat)) = .ok (w, n) := h
    simp only [Except.ok.injEq, Prod.mk.injEq] at h
    rw [← h.1]
    split <;> exact ⟨rfl, rfl⟩
  · replace h : (match et with
        | some e =>
            if e.hasValue val then (Except.ok (val, ctr) : Res (Value × Nat))
            else .error (.validationErr ("Unknown " ++ e.name ++
              " enum value: " ++ jsToString (classNameOf env) fuel val))
        | none => .error (.typeErr "fieldDef.enumType is undefined")) =
        .ok (w, n) := h
    split at h
    · split at h
      · simp only [Except.ok.injEq, Prod.mk.injEq] at h
        rw [← h.1]; exact ⟨hvu, hvf⟩
      · simp at h
    · simp at h
  · cases val <;>
      first
        | (replace h : (Except.ok (Value.arr ctr false [], ctr + 1) :
              Res (Value × Nat)) = .ok (w, n) := h
           simp only [Except.ok.injEq, Prod.mk.injEq] at h
           rw [← h.1]; exact ⟨rfl, rfl⟩)
        | (rename_i a b c2
           replace h : (Except.ok (Value.arr a b c2, ctr) :
              Res (Value × Nat)) = .ok (w, n) := h
           simp only [Except.ok.injEq, Prod.mk.injEq] at h
           rw [← h.1]; exact ⟨rfl, rfl⟩)

theorem getValueOrDefault_attr_out (fuel : Nat) (env : Env) (d : FieldDef)
    (val : Value) (ctr : Nat) (w : Value) (n : Nat)
    (ht : isHandledKind d.type = true)
    (hdvf : (resolveDefault d.defaultValue).isFunc = false)
    (hvf : val.isFunc = false)
    (h : getValueOrDefault fuel env d val ctr = .ok (w, n)) :
    w.isUndef = false ∧ w.isFunc = false := by
  unfold getValueOrDefault at h
  cases hemp : isEmpty val with
  | true =>
      rw [hemp] at h
      simp only [if_true, ite_true] at h
      by_cases hdvU : (resolveDefault d.defaultValue).isUndef = true
      · rw [if_neg (by simp [hdvU])] at h
        exact kindDefault_handled_out fuel env d val ctr w n ht h
      · rw [if_pos (by simpa using hdvU)] at h
        simp only [Except.ok.injEq, Prod.mk.injEq] at h
        rw [← h.1]
        exact ⟨by simpa using hdvU, hdvf⟩
  | false =>
      rw [hemp] at h
      simp only [Bool.false_eq_true, if_false, ite_false] at h
      cases val with
      | undef => simp [isEmpty] at hemp
      | null => simp [isEmpty] at hemp
      | func ret => simp [Value.isFunc] at hvf
      | _ =>
          refine coerceByType_handled_out fuel env d _ ctr w n ht ?_ hvf h
          rfl


theorem createF_shape (fuel : Nat) (env : Env) (c : Nat) (props : Value)
    (st : St) (i : Value) (st2 : St)
    (h : createF fuel env c props st = .ok (i, st2)) :
    ∃ n fs2, i = .inst n c fs2 := by
  unfold createF at h
  split at h <;> dsimp only at h <;> split at h <;>
    first
      | (simp only [Except.ok.injEq, Prod.mk.injEq] at h
         exact ⟨_, _, h.1.symm⟩)
      | simp at h

theorem deserializeF_shape (fuel : Nat) (env : Env) (c : Nat) (v : Value)
    (st : St) (a r : Value) (st2 : St)
    (h : deserializeF fuel env c v st = .ok (a, r, st2)) :
    r.isUndef = false ∧ r.isFunc = false := by
  cases fuel with
  | zero => simp [deserializeF] at h
  | succ fuel =>
      unfold deserializeF at h
      split at h
      · split at h
        · dsimp only at h
          split at h
          · simp only [Except.ok.injEq, Prod.mk.injEq] at h
            rw [← h.2.1]
            exact ⟨rfl, rfl⟩
          · split at h
            · simp at h
            · split at h
              · simp at h
              · rename_i hcf
                simp only [Except.ok.injEq, Prod.mk.injEq] at h
                rw [← h.2.1]
                obtain ⟨n2, fs2, hi⟩ := createF_shape _ _ _ _ _ _ _ hcf
                rw [hi]
                exact ⟨rfl, rfl⟩
        · dsimp only at h
          simp at h
      · dsimp only at h
        split at h
        · simp only [Except.ok.injEq, Prod.mk.injEq] at h
          rw [← h.2.1]
          exact ⟨rfl, rfl⟩
        · split at h
          · simp at h
          · split at h
            · simp at h
            · rename_i hcf
              simp only [Except.ok.injEq, Prod.mk.injEq] at h
              rw [← h.2.1]
              obtain ⟨n2, fs2, hi⟩ := createF_shape _ _ _ _ _ _ _ hcf
              rw [hi]
              exact ⟨rfl, rfl⟩

theorem rebuildTree_nonfunc (fuel : Nat) (v : Value) (n : Nat)
    (hv : v.isFunc = false) :
    ((rebuildTree fuel v n).1).isFunc = false := by
  cases fuel with
  | zero => simpa [rebuildTree] using hv
  | succ fuel =>
      cases v with
      | obj id fr fs =>
          rcases hm : mapAccumFields (rebuildTree fuel) fs n with ⟨fs1, n1⟩
          simp [rebuildTree, hm, Value.isFunc]
      | arr id fr xs =>
          rcases hm : mapAccumElems (rebuildTree fuel) xs n with ⟨xs1, n1⟩
          simp [rebuildTree, hm, Value.isFunc]
      | _ => simpa [rebuildTree] using hv

theorem rebuildTree_obj (fuel : Nat) (id : Nat) (fr : Bool)
    (fs : List (String × Value)) (n : Nat) (fs1 : List (String × Value))
    (n1 : Nat) (hm : mapAccumFields (rebuildTree fuel) fs n = (fs1, n1)) :
    rebuildTree (fuel + 1) (.obj id fr fs) n = (.obj n1 false fs1, n1 + 1) := by
  simp [rebuildTree, hm]

theorem mapAccumFields_nonfunc (f : Value → Nat → Value × Nat)
    (hf : ∀ v n, v.isFunc = false → ((f v n).1).isFunc = false) :
    ∀ (fs : List (String × Value)) (n : Nat),
    (∀ q ∈ fs, q.2.isFunc = false) →
    ∀ q ∈ (mapAccumFields f fs n).1, q.2.isFunc = false := by
  intro fs
  induction fs with
  | nil => intro n _ q hq; simp [mapAccumFields] at hq
  | cons p rest ih =>
      intro n hfs q hq
      obtain ⟨k, v⟩ := p
      rcases h1 : f v n with ⟨v1, n1⟩
      rcases h2 : mapAccumFields f rest n1 with ⟨fs1, n2⟩
      simp only [mapAccumFields, h1, h2] at hq
      rcases List.mem_cons.mp hq with hq1 | hq2
      · rw [hq1]
        have := hf v n (hfs (k, v) (by simp))
        rw [h1] at this
        exact this
      · have := ih n1 (fun q2 hq2b => hfs q2 (by simp [hq2b])) q
        rw [h2] at this
        exact this hq2

theorem lookup_getD_isFunc (l : List (String × Value)) (k : String)
    (hl : ∀ q ∈ l, q.2.isFunc = false) :
    ((l.lookup k).getD .undef).isFunc = false := by
  induction l with
  | nil => rfl
  | cons p rest ih =>
      simp only [List.lookup]
      cases hk : (k == p.1) with
      | true => simpa using hl p (by simp)
      | false => exact ih (fun q hq => hl q (by simp [hq]))

theorem lookup_eq_none_of_notmem {α : Type} (l : List (String × α))
    (k : String) (h : k ∉ l.map Prod.fst) : l.lookup k = none := by
  induction l with
  | nil => rfl
  | cons p rest ih =>
      simp only [List.map_cons, List.mem_cons, not_or] at h
      simp only [List.lookup, beq_eq_false_iff_ne.mpr h.1]
      exact ih h.2

theorem lookup_append_right {α : Type} (l1 l2 : List (String × α))
    (k : String) (h : l1.lookup k = none) :
    (l1 ++ l2).lookup k = l2.lookup k := by
  induction l1 with
  | nil => rfl
  | cons p rest ih =>
      simp only [List.lookup] at h
      cases hk : (k == p.1) with
      | true => rw [hk] at h; simp at h
      | false =>
          rw [hk] at h
          simp only [List.cons_append, List.lookup, hk]
          exact ih h

theorem lookup_filter_keyTrue (l : List (String × Value))
    (pr : String × Value → Bool) (k : String)
    (hpr : ∀ w, pr (k, w) = true) :
    (l.filter pr).lookup k = l.lookup k := by
  induction l with
  | nil => rfl
  | cons p rest ih =>
      obtain ⟨k1, w1⟩ := p
      cases hbeq : (k == k1) with
      | true =>
          have hk1 : k1 = k := (beq_iff_eq.mp hbeq).symm
          subst hk1
          simp only [List.filter, hpr w1, List.lookup, hbeq]
      | false =>
          cases hq : pr (k1, w1) with
          | true =>
              simp only [List.filter, hq, List.lookup, hbeq]
              exact ih
          | false =>
              simp only [List.filter, hq, List.lookup, hbeq]
              exact ih

theorem any_key_eq_false (l : List (String × FieldDef)) (k : String)
    (h : k ∉ l.map Prod.fst) : (l.any (fun r => r.1 == k)) = false := by
  rw [← Bool.not_eq_true, List.any_eq_true]
  rintro ⟨r, hr, hrk⟩
  have h1 : r.1 = k := beq_iff_eq.mp hrk
  apply h
  rw [← h1]
  exact List.mem_map_of_mem Prod.fst hr


theorem createFields_cons_ok (fuel : Nat) (env : Env) (key : String)
    (d : FieldDef) (rest : List (String × FieldDef))
    (props : List (String × Value)) (st : St)
    (vals : List (String × Value)) (st2 : St)
    (h : createFields fuel env ((key, d) :: rest) props st = .ok (vals, st2)) :
    ∃ w1 st1 ps, vals = (key, w1) :: ps ∧
      createFields fuel env rest props st1 = .ok (ps, st2) ∧
      ((d.kind = .attr ∨ d.kind = .fragment) →
        ∃ n1, getValueOrDefault fuel env d
          (if ((props.lookup key).getD Value.undef).isUndef
            then d.defaultValue.getD Value.undef
            else (props.lookup key).getD Value.undef) st.ctr = .ok (w1, n1)) ∧
      (d.kind = .fragmentArray →
        (jsTruthy (if ((props.lookup key).getD Value.undef).isUndef
            then d.defaultValue.getD Value.undef
            else (props.lookup key).getD Value.undef) = true ∧
          w1 = (if ((props.lookup key).getD Value.undef).isUndef
            then d.defaultValue.getD Value.undef
            else (props.lookup key).getD Value.undef)) ∨
        w1 = .arr st.ctr false []) := by
  simp only [createFields] at h
  split at h
  · simp at h
  · rename_i w1st1 w1 st1 heq
    split at h
    · simp at h
    · rename_i psst3 ps st3 heq2
      simp only [Except.ok.injEq, Prod.mk.injEq] at h
      refine ⟨w1, st1, ps, h.1.symm, by rw [heq2, h.2], ?_, ?_⟩
      · intro hk
        rcases hk with hk | hk <;>
          (rw [hk] at heq
           dsimp only at heq
           split at heq
           · simp at heq
           · rename_i wn w2 n2 heq3
             simp only [Except.ok.injEq, Prod.mk.injEq] at heq
             exact ⟨n2, by rw [heq3, heq.1]⟩)
      · intro hk
        rw [hk] at heq
        dsimp only at heq
        split at heq <;> rename_i hv0 <;>
          (first | rw [if_pos hv0] | rw [if_neg hv0]) <;>
          (split at heq <;> rename_i htr <;>
            simp only [Except.ok.injEq, Prod.mk.injEq] at heq)
        · exact Or.inl ⟨htr, heq.1.symm⟩
        · exact Or.inr heq.1.symm
        · exact Or.inl ⟨htr, heq.1.symm⟩
        · exact Or.inr heq.1.symm

theorem deserializeFields_cons_ok
    (dsr : Nat → Value → St → Res (Value × Value × St))
    (cfuel : Nat) (env : Env) (key : String) (d : FieldDef)
    (rest : List (String × FieldDef)) (v : Value) (st : St)
    (vals : List (String × Value)) (st2 : St)
    (h : deserializeFieldsGen dsr cfuel env ((key, d) :: rest) v st =
      .ok (vals, st2)) :
    ∃ w1 st1 ps, vals = (key, w1) :: ps ∧
      deserializeFieldsGen dsr cfuel env rest v st1 = .ok (ps, st2) ∧
      (d.kind = .attr → ∃ n1, getValueOrDefault cfuel env d
          (getProp v (d.apiKey.getD key)) st.ctr = .ok (w1, n1)) ∧
      (d.kind = .fragment → ∃ c2 a s3,
          dsr c2 (getProp v (d.apiKey.getD key)) st = .ok (a, w1, s3)) ∧
      (d.kind = .fragmentArray → ∃ aid rs, w1 = .arr aid false rs) := by
  simp only [deserializeFieldsGen] at h
  split at h
  · simp at h
  · rename_i w1st1 w1 st1 heq
    split at h
    · simp at h
    · rename_i psst3 ps st3 heq2
      simp only [Except.ok.injEq, Prod.mk.injEq] at h
      refine ⟨w1, st1, ps, h.1.symm, by rw [heq2, h.2], ?_, ?_, ?_⟩
      · intro hk
        rw [hk] at heq
        dsimp only at heq
        split at heq
        · simp at heq
        · rename_i wn w2 n2 heq3
          simp only [Except.ok.injEq, Prod.mk.injEq] at heq
          exact ⟨n2, by rw [heq3, heq.1]⟩
      · intro hk
        rw [hk] at heq
        dsimp only at heq
        split at heq
        · rename_i c2 htype
          split at heq
          · simp at heq
          · rename_i tr a2 r2 s2 heq3
            simp only [Except.ok.injEq, Prod.mk.injEq] at heq
            exact ⟨c2, a2, s2, by rw [heq3, heq.1]⟩
        · simp at heq
      · intro hk
        rw [hk] at heq
        dsimp only at heq
        split at heq
        · rename_i aid afr xs harr
          split at heq
          · rename_i c2 htype
            split at heq
            · simp at heq
            · rename_i rsst rs st4 heq3
              simp only [Except.ok.injEq, Prod.mk.injEq] at heq
              exact ⟨st4.ctr, rs, heq.1.symm⟩
          · rename_i s3 htype
            split at heq <;>
              first
                | (simp only [Except.ok.injEq, Prod.mk.injEq] at heq
                   exact ⟨st.ctr, [], heq.1.symm⟩)
                | simp at heq
        · simp only [Except.ok.injEq, Prod.mk.injEq] at heq
          exact ⟨st.ctr, [], heq.1.symm⟩


theorem createFields_lookup (fuel : Nat) (env : Env) :
    ∀ (defs2 : List (String × FieldDef)) (props : List (String × Value))
      (st : St) (vals : List (String × Value)) (st2 : St),
    createFields fuel env defs2 props st = .ok (vals, st2) →
    vals.map Prod.fst = defs2.map Prod.fst ∧
    (∀ k w, props.lookup k = some w → w.isUndef = false → w.isFunc = false →
      k ∈ defs2.map Prod.fst →
      ∃ w2, vals.lookup k = some w2 ∧ w2.isUndef = false) := by
  intro defs2
  induction defs2 with
  | nil =>
      intro props st vals st2 h
      simp only [createFields, Except.ok.injEq, Prod.mk.injEq] at h
      rw [← h.1]
      exact ⟨rfl, by intro k w _ _ _ hk; simp at hk⟩
  | cons q rest ih =>
      intro props st vals st2 h
      obtain ⟨key, d⟩ := q
      obtain ⟨w1, st1, ps, hvals, hrec, hspec1, hspec2⟩ :=
        createFields_cons_ok fuel env key d rest props st vals st2 h
      obtain ⟨ihkeys, ihmain⟩ := ih props st1 ps st2 hrec
      subst hvals
      refine ⟨by simp [ihkeys], ?_⟩
      intro k w hpw hwu hwf hk
      by_cases hbk : (k == key) = true
      · have hke : k = key := beq_iff_eq.mp hbk
        subst hke
        have hval : (if ((props.lookup k).getD Value.undef).isUndef
            then d.defaultValue.getD Value.undef
            else (props.lookup k).getD Value.undef) = w := by
          rw [hpw]
          simp only [Option.getD_some]
          rw [hwu]
          simp
        have hw1 : w1.isUndef = false := by
          cases hkind : d.kind with
          | attr =>
              obtain ⟨n1, hg⟩ := hspec1 (Or.inl hkind)
              rw [hval] at hg
              exact getValueOrDefault_out fuel env d w st.ctr w1 n1 hwu hwf hg
          | fragment =>
              obtain ⟨n1, hg⟩ := hspec1 (Or.inr hkind)
              rw [hval] at hg
              exact getValueOrDefault_out fuel env d w st.ctr w1 n1 hwu hwf hg
          | fragmentArray =>
              rcases hspec2 hkind with ⟨htr, hw⟩ | hw
              · rw [hw, hval]
                exact hwu
              · rw [hw]
                rfl
        exact ⟨w1, by simp [List.lookup], hw1⟩
      · have hbk2 : (k == key) = false := by simpa using hbk
        simp only [List.map_cons, List.mem_cons] at hk
        have hkr : k ∈ rest.map Prod.fst := by
          rcases hk with he | hm
          · exact absurd (beq_iff_eq.mpr he) (by simp [hbk2])
          · exact hm
        obtain ⟨w2, hlk, hdef⟩ := ihmain k w hpw hwu hwf hkr
        exact ⟨w2, by simp [List.lookup, hbk2, hlk], hdef⟩

theorem createFields_guard_lookup (fuel : Nat) (env : Env)
    (props : List (String × Value))
    (hprops : ∀ q ∈ props, q.2 ≠ .func .undef) :
    ∀ (defs2 : List (String × FieldDef)) (st : St)
      (vals : List (String × Value)) (st2 : St),
    (defs2.map Prod.fst).Nodup →
    createFields fuel env defs2 props st = .ok (vals, st2) →
    ∀ p ∈ defs2,
      (p.2.kind = .fragmentArray ∨
        (isHandledKind p.2.type = true ∧
          p.2.defaultValue ≠ some (.func .undef))) →
      ∃ w2, vals.lookup p.1 = some w2 ∧ w2.isUndef = false := by
  intro defs2
  induction defs2 with
  | nil => intro st vals st2 _ h p hp; simp at hp
  | cons q rest ih =>
      intro st vals st2 hnd h p hp hguard
      obtain ⟨key, d⟩ := q
      obtain ⟨w1, st1, ps, hvals, hrec, hspec1, hspec2⟩ :=
        createFields_cons_ok fuel env key d rest props st vals st2 h
      subst hvals
      simp only [List.map_cons] at hnd
      rcases List.mem_cons.mp hp with he | hm
      · subst he
        dsimp only at hguard ⊢
        have hw1 : w1.isUndef = false := by
          cases hkind : d.kind with
          | attr =>
              rcases hguard with hfa | ⟨hht, hdvne⟩
              · rw [hkind] at hfa
                exact absurd hfa (by decide)
              · obtain ⟨n1, hg⟩ := hspec1 (Or.inl hkind)
                refine getValueOrDefault_defined fuel env d _ st.ctr w1 n1
                  hht ?_ hg
                split
                · cases hdv : d.defaultValue with
                  | none => simp
                  | some x =>
                      simp only [Option.getD_some]
                      intro hx
                      exact hdvne (by rw [hdv, hx])
                · exact lookup_getD_ne props key hprops
          | fragment =>
              rcases hguard with hfa | ⟨hht, hdvne⟩
              · rw [hkind] at hfa
                exact absurd hfa (by decide)
              · obtain ⟨n1, hg⟩ := hspec1 (Or.inr hkind)
                refine getValueOrDefault_defined fuel env d _ st.ctr w1 n1
                  hht ?_ hg
                split
                · cases hdv : d.defaultValue with
                  | none => simp
                  | some x =>
                      simp only [Option.getD_some]
                      intro hx
                      exact hdvne (by rw [hdv, hx])
                · exact lookup_getD_ne props key hprops
          | fragmentArray =>
              rcases hspec2 hkind with ⟨htr, hw⟩ | hw
              · rw [hw]
                exact truthy_not_undef _ htr
              · rw [hw]
                rfl
        exact ⟨w1, by simp [List.lookup], hw1⟩
      · have hnotin := (List.nodup_cons.mp hnd).1
        have hrestnd := (List.nodup_cons.mp hnd).2
        have hpk : p.1 ≠ key :=
          fun he2 => hnotin (he2 ▸ List.mem_map_of_mem Prod.fst hm)
        obtain ⟨w2, hlk, hdef⟩ := ih st1 ps st2 hrestnd hrec p hm hguard
        have hbk2 : (p.1 == key) = false := beq_eq_false_iff_ne.mpr hpk
        exact ⟨w2, by simp [List.lookup, hbk2, hlk], hdef⟩

theorem deserializeFields_lookup
    (dsr : Nat → Value → St → Res (Value × Value × St))
    (cfuel : Nat) (env : Env)
    (hdsr : ∀ c2 v2 s2 a r s3, dsr c2 v2 s2 = .ok (a, r, s3) →
      r.isUndef = false ∧ r.isFunc = false)
    (v : Value) (hv : ∀ k, (getProp v k).isFunc = false) :
    ∀ (dlist : List (String × FieldDef)) (st : St)
      (params : List (String × Value)) (st1 : St),
    (dlist.map Prod.fst).Nodup →
    deserializeFieldsGen dsr cfuel env dlist v st = .ok (params, st1) →
    ∀ p ∈ dlist,
      (p.2.kind = .attr → isHandledKind p.2.type = true ∧
        (resolveDefault p.2.defaultValue).isFunc = false) →
      ∃ w, params.lookup p.1 = some w ∧ w.isUndef = false ∧
        w.isFunc = false := by
  intro dlist
  induction dlist with
  | nil => intro st params st1 _ h p hp; simp at hp
  | cons q rest ih =>
      intro st params st1 hnd h p hp hguard
      obtain ⟨key, d⟩ := q
      obtain ⟨w1, st1b, ps, hvals, hrec, hattr, hfrag, hfarr⟩ :=
        deserializeFields_cons_ok dsr cfuel env key d rest v st params st1 h
      subst hvals
      simp only [List.map_cons] at hnd
      rcases List.mem_cons.mp hp with he | hm
      · subst he
        dsimp only at hguard ⊢
        have hw1 : w1.isUndef = false ∧ w1.isFunc = false := by
          cases hkind : d.kind with
          | attr =>
              obtain ⟨hht, hrdf⟩ := hguard hkind
              obtain ⟨n1, hg⟩ := hattr hkind
              exact getValueOrDefault_attr_out cfuel env d _ st.ctr w1 n1
                hht hrdf (hv _) hg
          | fragment =>
              obtain ⟨c2, a2, s3, hdc⟩ := hfrag hkind
              exact hdsr c2 _ st a2 w1 s3 hdc
          | fragmentArray =>
              obtain ⟨aid, rs, hw⟩ := hfarr hkind
              rw [hw]
              exact ⟨rfl, rfl⟩
        exact ⟨w1, by simp [List.lookup], hw1.1, hw1.2⟩
      · have hnotin := (List.nodup_cons.mp hnd).1
        have hrestnd := (List.nodup_cons.mp hnd).2
        have hpk : p.1 ≠ key :=
          fun he2 => hnotin (he2 ▸ List.mem_map_of_mem Prod.fst hm)
        obtain ⟨w2, hlk, hdef, hnf⟩ := ih st1b ps st1 hrestnd hrec p hm hguard
        have hbk2 : (p.1 == key) = false := beq_eq_false_iff_ne.mpr hpk
        exact ⟨w2, by simp [List.lookup, hbk2, hlk], hdef, hnf⟩


theorem createF_lookup_defined (fuel : Nat) (env : Env) (c : Nat)
    (oid : Nat) (ofr : Bool) (params : List (String × Value)) (st : St)
    (j : Value) (st2 : St) (k : String) (w : Value)
    (h : createF fuel env c (.obj oid ofr params) st = .ok (j, st2))
    (hpw : params.lookup k = some w) (hwu : w.isUndef = false)
    (hwf : w.isFunc = false) :
    (getProp j k).isUndef = false := by
  unfold createF at h
  dsimp only at h
  rcases hgf : getFieldDefs env c st with ⟨schema, st1⟩
  rw [hgf] at h
  dsimp only at h
  cases hcf : createFields fuel env schema.defs params st1 with
  | error e => rw [hcf] at h; simp at h
  | ok vst =>
      obtain ⟨vals, st3⟩ := vst
      rw [hcf] at h
      dsimp only at h
      simp only [Except.ok.injEq, Prod.mk.injEq] at h
      obtain ⟨hj, -⟩ := h
      rw [← hj]
      obtain ⟨hkeys2, hmain⟩ :=
        createFields_lookup fuel env schema.defs params st1 vals st3 hcf
      by_cases hk : k ∈ schema.defs.map Prod.fst
      · obtain ⟨w2, hlk, hdef⟩ := hmain k w hpw hwu hwf hk
        simp only [getProp]
        rw [lookup_append_left _ _ _ _ hlk]
        simpa using hdef
      · have hvalsnone : vals.lookup k = none :=
          lookup_eq_none_of_notmem vals k (by rw [hkeys2]; exact hk)
        simp only [getProp]
        rw [lookup_append_right _ _ _ hvalsnone]
        rw [lookup_filter_keyTrue params _ k
          (fun w3 => by simp [any_key_eq_false schema.defs k hk])]
        rw [hpw]
        simpa using hwu


/-- C9 amended: after construction, every schema field whose descriptor is
of fragment-array kind or of a handled scalar kind (with a default that is
not a producer of the undefined value) carries a defined value — for
`create` from any partial or empty plain-object initial-value map, and for
a successful `deserialize` of a plain-object input, where in addition
every fragment and fragment-array field is defined as well (fragments
resolve to null or a nested instance, fragment arrays to an array); but a
fragment-kind field of `create` with no supplied value and no default
remains undefined (see the counterexample). -/
theorem c9_amended (fuel : Nat) (env : Env) (c : Nat) (nm : String)
    (defs : List (String × FieldDef)) (pid : Nat) (pfr : Bool)
    (pfs : List (String × Value)) (st : St)
    (hcls : getClass env c = some ⟨nm, none, defs⟩)
    (hcache : st.cache = [])
    (hkeys : (defs.map Prod.fst).Nodup) :
    (∀ j st2, createF fuel env c (.obj pid pfr pfs) st = .ok (j, st2) →
      (∀ q ∈ pfs, q.2 ≠ .func .undef) →
      ∀ p ∈ defs,
        p.2.kind = .fragmentArray ∨
          (isHandledKind p.2.type = true ∧
            p.2.defaultValue ≠ some (.func .undef)) →
        (getProp j p.1).isUndef = false) ∧
    (∀ arg j st2,
      deserializeF (fuel + 1) env c (.obj pid pfr pfs) st =
        .ok (arg, j, st2) →
      (∀ q ∈ pfs, q.2.isFunc = false) →
      ∀ p ∈ defs,
        (p.2.kind = .attr → isHandledKind p.2.type = true ∧
          (resolveDefault p.2.defaultValue).isFunc = false) →
        (getProp j p.1).isUndef = false) := by
  have hproto2 : protoFields env c = defs := protoFields_root env c _ hcls rfl
  have hndA : ((annotate defs).map Prod.fst).Nodup := by
    rw [annotate_keys]; exact hkeys
  constructor
  · intro j st2 h hprops p hp hguard
    unfold createF at h
    rw [getFieldDefs_empty env c st hcache] at h
    dsimp only at h
    rw [hproto2] at h
    cases hcf : createFields fuel env (annotate defs) pfs
        ⟨[(c, ⟨st.ctr, annotate defs⟩)], st.ctr + 1⟩ with
    | error e => rw [hcf] at h; simp at h
    | ok vst =>
        obtain ⟨vals, st3⟩ := vst
        rw [hcf] at h
        dsimp only at h
        simp only [Except.ok.injEq, Prod.mk.injEq] at h
        obtain ⟨hj, -⟩ := h
        rw [← hj]
        have hpA : (p.1, { p.2 with key := some p.1 }) ∈ annotate defs :=
          List.mem_map_of_mem _ hp
        have hguardA : ((p.1, { p.2 with key := some p.1 }) :
              String × FieldDef).2.kind = .fragmentArray ∨
            (isHandledKind ((p.1, { p.2 with key := some p.1 }) :
              String × FieldDef).2.type = true ∧
             ((p.1, { p.2 with key := some p.1 }) :
              String × FieldDef).2.defaultValue ≠ some (.func .undef)) :=
          hguard
        obtain ⟨w2, hlk, hdef⟩ := createFields_guard_lookup fuel env pfs hprops
          (annotate defs) _ vals st3 hndA hcf
          (p.1, { p.2 with key := some p.1 }) hpA hguardA
        have hlk2 : vals.lookup p.1 = some w2 := hlk
        simp only [getProp]
        rw [lookup_append_left _ _ _ _ hlk2]
        simpa using hdef
  · intro arg j st2 h hprops p hp hguard
    unfold deserializeF at h
    dsimp only [freezeTop, camelizeObject] at h
    rcases hmf : mapAccumFields (rebuildTree fuel) pfs st.ctr with ⟨pfs1, n1c⟩
    rw [rebuildTree_obj fuel pid true pfs st.ctr pfs1 n1c hmf] at h
    dsimp only [setCtr, Value.isNullish] at h
    simp only [Bool.false_eq_true, if_false, ite_false] at h
    rw [getFieldDefs_empty env c ⟨st.cache, n1c + 1⟩ hcache] at h
    dsimp only at h
    rw [hproto2] at h
    cases hdg : deserializeFieldsGen
        (fun c2 v2 s2 => deserializeF fuel env c2 v2 s2) (fuel + 1) env
        (annotate defs) (.obj n1c false pfs1)
        ⟨[(c, ⟨n1c + 1, annotate defs⟩)], n1c + 1 + 1⟩ with
    | error e => rw [hdg] at h; simp at h
    | ok pst =>
        obtain ⟨params, st3⟩ := pst
        rw [hdg] at h
        dsimp only at h
        cases hcf : createF (fuel + 1) env c (.obj st3.ctr false params)
            (bumpCtr st3) with
        | error e => rw [hcf] at h; simp at h
        | ok ist =>
            obtain ⟨i2, st4⟩ := ist
            rw [hcf] at h
            simp only [Except.ok.injEq, Prod.mk.injEq] at h
            obtain ⟨-, hji, -⟩ := h
            rw [← hji]
            have hvcam : ∀ k, (getProp (.obj n1c false pfs1) k).isFunc =
                false := by
              intro k
              have hmn := mapAccumFields_nonfunc (rebuildTree fuel)
                (fun v2 n2 hv2 => rebuildTree_nonfunc fuel v2 n2 hv2)
                pfs st.ctr hprops
              rw [hmf] at hmn
              exact lookup_getD_isFunc pfs1 k hmn
            have hdsr : ∀ c2 v2 s2 a r s3,
                deserializeF fuel env c2 v2 s2 = .ok (a, r, s3) →
                r.isUndef = false ∧ r.isFunc = false :=
              fun c2 v2 s2 a r s3 hh =>
                deserializeF_shape fuel env c2 v2 s2 a r s3 hh
            have hpA : (p.1, { p.2 with key := some p.1 }) ∈ annotate defs :=
              List.mem_map_of_mem _ hp
            have hguardA : ((p.1, { p.2 with key := some p.1 }) :
                  String × FieldDef).2.kind = .attr →
                isHandledKind ((p.1, { p.2 with key := some p.1 }) :
                  String × FieldDef).2.type = true ∧
                (resolveDefault ((p.1, { p.2 with key := some p.1 }) :
                  String × FieldDef).2.defaultValue).isFunc = false :=
              hguard
            obtain ⟨w, hlkp, hwd, hwf⟩ := deserializeFields_lookup
              (fun c2 v2 s2 => deserializeF fuel env c2 v2 s2) (fuel + 1) env
              hdsr (.obj n1c false pfs1) hvcam (annotate defs)
              ⟨[(c, ⟨n1c + 1, annotate defs⟩)], n1c + 1 + 1⟩ params st3 hndA
              hdg
              (p.1, { p.2 with key := some p.1 }) hpA hguardA
            have hlkp2 : params.lookup p.1 = some w := hlkp
            exact createF_lookup_defined (fuel + 1) env c st3.ctr false params
              (bumpCtr st3) i2 st4 p.1 w hcf hlkp2 hwd hwf


/-- C9 amended witness: the mixed record type C of `fragEnv` (an array
attr and a fragment).  Both halves of the amended theorem are applied: the
created instance has its scalar field defined (its fragment stays
undefined, per the counterexample), and the deserialized instance has both
its scalar field and its fragment field (as null) defined. -/
theorem c9_amended_witness :
    (getProp (.inst 2 1 [("tags", .arr 1 false []), ("f", .undef)])
      "tags").isUndef = false ∧
    (getProp (.inst 4 1 [("tags", .arr 2 false []), ("f", .null)])
      "tags").isUndef = false ∧
    (getProp (.inst 4 1 [("tags", .arr 2 false []), ("f", .null)])
      "f").isUndef = false := by
  have hc := c9_amended 2 fragEnv 1 "C"
    [("tags", attrDef "array"), ("f", fragmentDef 0)] 100 false [] St.empty
    rfl rfl (by decide)
  refine ⟨?_, ?_, ?_⟩
  · exact hc.1 (.inst 2 1 [("tags", .arr 1 false []), ("f", .undef)])
      ⟨[(1, ⟨0, annotate
        [("tags", attrDef "array"), ("f", fragmentDef 0)]⟩)], 3⟩
      rfl (by intro q hq; simp at hq)
      ("tags", attrDef "array") (by simp)
      (Or.inr ⟨by decide, by simp [attrDef]⟩)
  · exact hc.2 (.obj 100 true [])
      (.inst 4 1 [("tags", .arr 2 false []), ("f", .null)])
      ⟨[(1, ⟨1, annotate
        [("tags", attrDef "array"), ("f", fragmentDef 0)]⟩)], 5⟩
      rfl (by intro q hq; simp at hq)
      ("tags", attrDef "array") (by simp)
      (fun _ => ⟨by decide, by decide⟩)
  · exact hc.2 (.obj 100 true [])
      (.inst 4 1 [("tags", .arr 2 false []), ("f", .null)])
      ⟨[(1, ⟨1, annotate
        [("tags", attrDef "array"), ("f", fragmentDef 0)]⟩)], 5⟩
      rfl (by intro q hq; simp at hq)
      ("f", fragmentDef 0) (by simp)
      (fun hk => absurd hk (by decide))

end RSM










